import Mathlib

/-!
Verification of the rc-coach geometry engine against its specification.

The TypeScript sources are shallowly embedded over `ℝ`:
* JS `number` arithmetic is idealized as real arithmetic (no NaN / ±0);
  `Infinity` sentinels used by minimum-scans are modelled by `Option ℝ`
  with `none` playing the role of `Infinity`.
* `Math.hypot`, `Math.sqrt` become `Real.sqrt`; `Math.atan2 y x` becomes
  `Complex.arg ⟨x, y⟩`, which has the same range `(-π, π]` and the same
  value on every non-NaN input.
* functions that `throw` are embedded in `Except String`, the thrown
  `Error` message being the `Except.error` payload.
-/

namespace RcCoach

open scoped Classical

/-- A 2-vector, the embedding of the tuple type `Vec2 = [number, number]`. -/
abbrev Vec2 : Type := ℝ × ℝ

/-- The record point type `Pt = { x: number; y: number }` of `geometry.ts`. -/
structure Pt where
  x : ℝ
  y : ℝ

/-- Embedding of `Math.atan2(y, x)`: the argument of the complex number
`x + y·i`, valued in `(-π, π]` (and `0` at the origin, as in JS). -/
noncomputable def atan2 (y x : ℝ) : ℝ := Complex.arg ⟨x, y⟩

/-- Embedding of `Math.hypot(x, y)`. -/
noncomputable def hypot (x y : ℝ) : ℝ := Real.sqrt (x * x + y * y)

/-! ## `coord-helpers.ts` -/

/-- `SizePx = { w: number; h: number }` (also used for `SizeMeters`). -/
structure SizePx where
  w : ℝ
  h : ℝ

/-- `SizeMeters = { w: number; h: number }`. -/
abbrev SizeMeters : Type := SizePx

/-- `normToPxPoint(p, px)` of `coord-helpers.ts`. -/
noncomputable def normToPxPoint (p : Vec2) (px : SizePx) : Pt :=
  ⟨p.1 * px.w, p.2 * px.h⟩

/-- `pxToNormPoint(pt, px)` of `coord-helpers.ts`. -/
noncomputable def pxToNormPoint (pt : Pt) (px : SizePx) : Vec2 :=
  (pt.x / px.w, pt.y / px.h)

/-- `normToMeters(p, meters)` of `coord-helpers.ts`. -/
noncomputable def normToMeters (p : Vec2) (meters : SizeMeters) : Vec2 :=
  (p.1 * meters.w, p.2 * meters.h)

/-- `metersToNorm(pMeters, meters)` of `coord-helpers.ts`. -/
noncomputable def metersToNorm (pMeters : Vec2) (meters : SizeMeters) : Vec2 :=
  (pMeters.1 / meters.w, pMeters.2 / meters.h)

/-- `pxPerMeter(px, meters)` of `coord-helpers.ts`. -/
noncomputable def pxPerMeter (px : SizePx) (meters : SizeMeters) : Vec2 :=
  (px.w / meters.w, px.h / meters.h)

/-! ## `geometry.ts`: quad validation -/

/-- `dist2(a, b)`: squared distance between two points. -/
noncomputable def dist2 (a b : Pt) : ℝ :=
  (a.x - b.x) * (a.x - b.x) + (a.y - b.y) * (a.y - b.y)

/-- `quadArea(pts)`: shoelace area of the first four points
(out-of-range JS indexing cannot occur on the call sites, which check the
count first; we use index defaults). -/
noncomputable def quadArea (pts : List Pt) : ℝ :=
  |((List.range 4).foldl (fun a i =>
      let p := pts.getD i ⟨0, 0⟩
      let q := pts.getD ((i + 1) % 4) ⟨0, 0⟩
      a + (p.x * q.y - q.x * p.y)) 0)| / 2

/-- `cross(p, q, r)`: z-component of `(q - p) × (r - p)`. -/
noncomputable def cross (p q r : Pt) : ℝ :=
  (q.x - p.x) * (r.y - p.y) - (q.y - p.y) * (r.x - p.x)

/-- Embedding of `Math.sign` (on non-NaN reals). -/
noncomputable def jsSign (v : ℝ) : ℝ :=
  if v > 0 then 1 else if v < 0 then -1 else 0

/-- `isConvexQuad(p)`: the four cyclic cross products share one nonzero sign. -/
noncomputable def isConvexQuad (p : List Pt) : Bool :=
  let g := fun i => p.getD i ⟨0, 0⟩
  let s1 := jsSign (cross (g 0) (g 1) (g 2))
  let s2 := jsSign (cross (g 1) (g 2) (g 3))
  let s3 := jsSign (cross (g 2) (g 3) (g 0))
  let s4 := jsSign (cross (g 3) (g 0) (g 1))
  decide (s1 ≠ 0 ∧ s1 = s2 ∧ s2 = s3 ∧ s3 = s4)

/-- `inBounds(p, w, h)` of `geometry.ts`. -/
noncomputable def inBounds (p : Pt) (w h : ℝ) : Bool :=
  decide (p.x ≥ 0 ∧ p.y ≥ 0 ∧ p.x ≤ w ∧ p.y ≤ h)

/-- Result type of `validateQuadTLTRBRBL`:
`{ ok: true } | { ok: false; reason: string }`. -/
inductive QuadCheck where
  | ok : QuadCheck
  | err (reason : String) : QuadCheck
deriving DecidableEq

def reasonNeedFour : String := "Need exactly 4 points"

def reasonOutOfBounds : String := "A point is outside the image bounds"

def reasonTooClose : String := "Two points are too close together"

def reasonNonConvex : String := "Quad is self-intersecting or non-convex (bow-tie)"

def reasonAreaTooSmall : String := "Quad area is too small / nearly degenerate"

/-- `validateQuadTLTRBRBL(pts, imageW, imageH, opts)` of `geometry.ts`.
The optional thresholds are passed explicitly; the source defaults are
`minSep = 20` and `minArea = 5000`. Checks run in source order,
short-circuiting at the first failure. -/
noncomputable def validateQuadTLTRBRBL (pts : List Pt) (imageW imageH : ℝ)
    (minSep : ℝ := 20) (minArea : ℝ := 5000) : QuadCheck :=
  if pts.length ≠ 4 then .err reasonNeedFour
  else
    if ¬ (∀ p ∈ pts, inBounds p imageW imageH = true) then .err reasonOutOfBounds
    else if ∃ i ∈ List.range 4, ∃ j ∈ List.range 4, i < j ∧
        dist2 (pts.getD i ⟨0, 0⟩) (pts.getD j ⟨0, 0⟩) < minSep * minSep then
      .err reasonTooClose
    else if isConvexQuad pts ≠ true then .err reasonNonConvex
    else if quadArea pts < minArea then .err reasonAreaTooSmall
    else .ok

/-! ## `geometry.ts`: canonical quad ordering -/

/-- The strict lexicographic test of the TL scan in `orderQuadTLTRBRBLv2`:
`a.y < b.y || (a.y === b.y && a.x < b.x)`. -/
def lexYX (a b : Pt) : Prop := a.y < b.y ∨ (a.y = b.y ∧ a.x < b.x)

/-- Step 1 of `orderQuadTLTRBRBLv2`: centroid via `reduce`, then `/= 4`. -/
noncomputable def quadCentroid (raw : List Pt) : Pt :=
  let c := raw.foldl (fun a p => ⟨a.x + p.x, a.y + p.y⟩) (⟨0, 0⟩ : Pt)
  ⟨c.x / 4, c.y / 4⟩

/-- `Math.atan2(p.y - c.y, p.x - c.x)`: polar angle of `p` around `c`. -/
noncomputable def angleAround (c p : Pt) : ℝ := atan2 (p.y - c.y) (p.x - c.x)

/-- Step 2 of `orderQuadTLTRBRBLv2`:
`raw.map(p => ({p, a})).sort((u, v) => u.a - v.a).map(u => u.p)`.
JS `Array.prototype.sort` is stable, so it is embedded as a stable
insertion sort on the nondecreasing-angle relation. -/
noncomputable def sortByAngle (raw : List Pt) (c : Pt) : List Pt :=
  (List.insertionSort (fun u v : Pt × ℝ => u.2 ≤ v.2)
    (raw.map (fun p => (p, angleAround c p)))).map Prod.fst

/-- Step 3's scan: index of the first lexicographically-least `(y, x)` point. -/
noncomputable def tlIdxOf (byAngle : List Pt) : ℕ :=
  [1, 2, 3].foldl (fun t i =>
    if lexYX (byAngle.getD i ⟨0, 0⟩) (byAngle.getD t ⟨0, 0⟩) then i else t) 0

/-- Steps 3–4 of `orderQuadTLTRBRBLv2`: rotate the angle-sorted list so the
TL point is first; if the new second point is lower than the fourth
(winding flipped) swap positions 1 and 3. -/
noncomputable def rotateAndFix (byAngle : List Pt) : List Pt :=
  let tlIdx := tlIdxOf byAngle
  let o0 := byAngle.getD ((tlIdx + 0) % 4) ⟨0, 0⟩
  let o1 := byAngle.getD ((tlIdx + 1) % 4) ⟨0, 0⟩
  let o2 := byAngle.getD ((tlIdx + 2) % 4) ⟨0, 0⟩
  let o3 := byAngle.getD ((tlIdx + 3) % 4) ⟨0, 0⟩
  if o1.y > o3.y then [o0, o3, o2, o1] else [o0, o1, o2, o3]

/-- `orderQuadTLTRBRBLv2(raw)` of `geometry.ts`: throws
`Error('Need exactly 4 points')` unless given exactly 4 points, then
orders them TL, TR, BR, BL by the centroid/angle-sort algorithm. -/
noncomputable def orderQuadTLTRBRBLv2 (raw : List Pt) : Except String (List Pt) :=
  if raw.length ≠ 4 then .error reasonNeedFour
  else .ok (rotateAndFix (sortByAngle raw (quadCentroid raw)))

/-! ## `centerline-params.ts` -/

/-- `CenterlineParams` of `centerline-params.ts`. -/
structure CenterlineParams where
  points : List Vec2
  arcLengths : List ℝ
  totalLength : ℝ
  headings : List ℝ
  curvatures : List ℝ

/-- `dx` of segment `i`: x-difference from vertex `i` to vertex `(i+1) mod n`. -/
noncomputable def segDx (points : List Vec2) (i : ℕ) : ℝ :=
  (points.getD ((i + 1) % points.length) (0, 0)).1 - (points.getD i (0, 0)).1

/-- `dy` of segment `i`. -/
noncomputable def segDy (points : List Vec2) (i : ℕ) : ℝ :=
  (points.getD ((i + 1) % points.length) (0, 0)).2 - (points.getD i (0, 0)).2

/-- `segLen = Math.hypot(dx, dy)` for segment `i`. -/
noncomputable def segLen (points : List Vec2) (i : ℕ) : ℝ :=
  hypot (segDx points i) (segDy points i)

/-- Cumulative arc-length at vertex `i`: the loop pushes
`arcLengths[i] = arcLengths[i-1] + segLen(i-1)` starting from `[0]`,
i.e. entry `i` is the sum of the first `i` segment lengths. -/
noncomputable def arcLengthAt (points : List Vec2) (i : ℕ) : ℝ :=
  ∑ j in Finset.range i, segLen points j

/-- The `arcLengths` array (one entry per vertex). -/
noncomputable def arcLengthsOf (points : List Vec2) : List ℝ :=
  (List.range points.length).map (arcLengthAt points)

/-- The `headings` array: `headings[i] = Math.atan2(dy, dx)` of segment `i`. -/
noncomputable def headingsOf (points : List Vec2) : List ℝ :=
  (List.range points.length).map (fun i => atan2 (segDy points i) (segDx points i))

/-- One entry of the `curvatures` array: centered difference of heading over
the circular difference of arc-lengths, zero unless `dS > 0.1`. -/
noncomputable def curvatureAt (points : List Vec2) (i : ℕ) : ℝ :=
  let n := points.length
  let hNext := (headingsOf points).getD ((i + 1) % n) 0
  let hPrev := (headingsOf points).getD (if i = 0 then n - 1 else i - 1) 0
  let dS := (arcLengthsOf points).getD ((i + 1) % n) 0 -
    (arcLengthsOf points).getD (if i = 0 then n - 1 else i - 1) 0
  if dS > 0.1 then (hNext - hPrev) / dS else 0

/-- The `curvatures` array. -/
noncomputable def curvaturesOf (points : List Vec2) : List ℝ :=
  (List.range points.length).map (curvatureAt points)

/-- Body of `parameterizeCenterline` after its count guard (`n ≥ 2` at every
call site; `totalLength = arcLengths[arcLengths.length - 1]`). -/
noncomputable def parameterizeCore (points : List Vec2) : CenterlineParams :=
  { points := points
    arcLengths := arcLengthsOf points
    totalLength := (arcLengthsOf points).getD (points.length - 1) 0
    headings := headingsOf points
    curvatures := curvaturesOf points }

def msgTooFew : String := "Need at least 2 points for centerline"

/-- `parameterizeCenterline(points)`: throws on fewer than 2 points. -/
noncomputable def parameterizeCenterline (points : List Vec2) :
    Except String CenterlineParams :=
  if points.length < 2 then .error msgTooFew else .ok (parameterizeCore points)

/-- Truncation toward zero, as used by the JS `%` operator. -/
noncomputable def trunc (x : ℝ) : ℤ := if 0 ≤ x then ⌊x⌋ else ⌈x⌉

/-- The JS remainder `a % b` (truncated division; a zero modulus gives NaN
in JS and is never reached by the callers in scope). -/
noncomputable def jsMod (a b : ℝ) : ℝ := a - b * ((trunc (a / b) : ℤ) : ℝ)

/-- Result record of `poseAtArcLength`. -/
structure PoseOnLine where
  pos : Vec2
  heading : ℝ
  curvature : ℝ

/-- `poseAtArcLength(params, s)` of `centerline-params.ts`. The JS index
`idx` can momentarily be `-1` (when the very first arc-length exceeds
`sWrapped`); `Math.max(0, Math.min(idx, n-2))` sends it to `0`, exactly as
ℕ-truncated subtraction followed by `min` does. -/
noncomputable def poseAtArcLength (params : CenterlineParams) (s : ℝ) : PoseOnLine :=
  let A := params.arcLengths
  let sW := jsMod (jsMod s params.totalLength + params.totalLength) params.totalLength
  let idx0 : ℕ :=
    match (List.range A.length).find? (fun i => decide (A.getD i 0 > sW)) with
    | some i => i - 1
    | none => 0
  let idx := min idx0 (params.points.length - 2)
  let s0 := A.getD idx 0
  let s1 := A.getD (idx + 1) 0
  let p0 := params.points.getD idx (0, 0)
  let p1 := params.points.getD (idx + 1) (0, 0)
  let h0 := params.headings.getD idx 0
  let h1 := params.headings.getD (idx + 1) 0
  let k0 := params.curvatures.getD idx 0
  let k1 := params.curvatures.getD (idx + 1) 0
  let t := if s1 > s0 then (sW - s0) / (s1 - s0) else 0
  { pos := (p0.1 + t * (p1.1 - p0.1), p0.2 + t * (p1.2 - p0.2))
    heading := h0 + t * (h1 - h0)
    curvature := k0 + t * (k1 - k0) }

/-- Result record of `nearestArcLength`. -/
structure NearestHit where
  s : ℝ
  distance : ℝ
  d : ℝ

/-- The candidate `{ s, distance, d }` that iteration `i` of
`nearestArcLength`'s scan computes for segment `i` (projection of `pt`
onto segment `i`, `t` clamped to `[0,1]`, signed `d` via the right-hand
normal). -/
noncomputable def segCandidate (params : CenterlineParams) (pt : Vec2) (i : ℕ) :
    NearestHit :=
  let n := params.points.length
  let p0 := params.points.getD i (0, 0)
  let p1 := params.points.getD ((i + 1) % n) (0, 0)
  let s0 := params.arcLengths.getD i 0
  let s1 := if i < n - 1 then params.arcLengths.getD (i + 1) 0
    else params.arcLengths.getD 0 0 + params.totalLength
  let dx := p1.1 - p0.1
  let dy := p1.2 - p0.2
  let lenSq := dx * dx + dy * dy
  let t := if lenSq > 1e-6 then
      max 0 (min 1 (((pt.1 - p0.1) * dx + (pt.2 - p0.2) * dy) / lenSq)) else 0
  let closest : Vec2 := (p0.1 + t * dx, p0.2 + t * dy)
  let dist := hypot (pt.1 - closest.1) (pt.2 - closest.2)
  let normalX := -dy / Real.sqrt lenSq
  let normalY := dx / Real.sqrt lenSq
  { s := s0 + t * (s1 - s0)
    distance := dist
    d := (pt.1 - closest.1) * normalX + (pt.2 - closest.2) * normalY }

/-- One step of `nearestArcLength`'s minimum scan; the running minimum
distance starts at `Infinity`, modelled by `none`. -/
noncomputable def nearStep (params : CenterlineParams) (pt : Vec2)
    (st : Option ℝ × ℝ × ℝ) (i : ℕ) : Option ℝ × ℝ × ℝ :=
  let c := segCandidate params pt i
  match st.1 with
  | none => (some c.distance, c.s, c.d)
  | some m => if c.distance < m then (some c.distance, c.s, c.d) else st

/-- `nearestArcLength(params, pt)` of `centerline-params.ts`: brute-force
scan over all `n` segments including the closing one. (With an empty
point list the JS minimum stays `Infinity`; our embedding reports `0`
there, a case no caller reaches since parameterization requires `n ≥ 2`.) -/
noncomputable def nearestArcLength (params : CenterlineParams) (pt : Vec2) :
    NearestHit :=
  let r := (List.range params.points.length).foldl (nearStep params pt) (none, 0, 0)
  { s := r.2.1, distance := r.1.getD 0, d := r.2.2 }

/-! ## `frenet.ts` -/

/-- `FrenetPose` of `frenet.ts`. -/
structure FrenetPose where
  s : ℝ
  d : ℝ
  heading : ℝ
  headingError : ℝ

/-- `normalizeAngle(angle)`: the two `while` loops of `frenet.ts`, which
shift by `2π` until the angle lies in `[-π, π]`. -/
noncomputable def normalizeAngle (angle : ℝ) : ℝ :=
  if angle > Real.pi then normalizeAngle (angle - 2 * Real.pi)
  else if angle < -Real.pi then normalizeAngle (angle + 2 * Real.pi)
  else angle
termination_by Nat.ceil (|angle| / Real.pi)
decreasing_by
· have hπ : (0 : ℝ) < Real.pi := Real.pi_pos
  rename_i h
  rcases le_or_lt (2 * Real.pi) angle with hc | hc
  · have habs : |angle - 2 * Real.pi| = angle - 2 * Real.pi := by
      rw [abs_of_nonneg]; linarith
    have h1 : |angle - 2 * Real.pi| / Real.pi + 1 ≤ |angle| / Real.pi := by
      have hkey : |angle - 2 * Real.pi| + Real.pi ≤ |angle| := by
        rw [habs, abs_of_nonneg (by linarith : (0:ℝ) ≤ angle)]; linarith
      have hsplit : (|angle - 2 * Real.pi| + Real.pi) / Real.pi =
          |angle - 2 * Real.pi| / Real.pi + 1 := by field_simp
      rw [← hsplit]
      gcongr
    have h2 : (Nat.ceil (|angle - 2 * Real.pi| / Real.pi) + 1 : ℕ) ≤
        Nat.ceil (|angle| / Real.pi) := by
      have := Nat.ceil_add_one (by positivity : (0:ℝ) ≤ |angle - 2 * Real.pi| / Real.pi)
      calc (Nat.ceil (|angle - 2 * Real.pi| / Real.pi) + 1 : ℕ)
          = Nat.ceil (|angle - 2 * Real.pi| / Real.pi + 1) := this.symm
        _ ≤ Nat.ceil (|angle| / Real.pi) := Nat.ceil_le_ceil h1
    omega
  · have h1 : Nat.ceil (|angle - 2 * Real.pi| / Real.pi) ≤ 1 := by
      apply Nat.ceil_le.mpr
      rw [div_le_iff₀ hπ]
      push_cast
      rw [one_mul, abs_le]
      constructor <;> linarith
    have h2 : 1 < Nat.ceil (|angle| / Real.pi) := by
      rw [Nat.lt_ceil]
      push_cast
      rw [lt_div_iff₀ hπ, one_mul]
      calc Real.pi < angle := h
        _ ≤ |angle| := le_abs_self angle
    omega
· have hπ : (0 : ℝ) < Real.pi := Real.pi_pos
  rename_i h2
  rcases le_or_lt angle (-(2 * Real.pi)) with hc | hc
  · have habs : |angle + 2 * Real.pi| = -(angle + 2 * Real.pi) := by
      rw [abs_of_nonpos]; linarith
    have h1 : |angle + 2 * Real.pi| / Real.pi + 1 ≤ |angle| / Real.pi := by
      have hkey : |angle + 2 * Real.pi| + Real.pi ≤ |angle| := by
        rw [habs, abs_of_nonpos (by linarith : angle ≤ 0)]; linarith
      have hsplit : (|angle + 2 * Real.pi| + Real.pi) / Real.pi =
          |angle + 2 * Real.pi| / Real.pi + 1 := by field_simp
      rw [← hsplit]
      gcongr
    have h3 : (Nat.ceil (|angle + 2 * Real.pi| / Real.pi) + 1 : ℕ) ≤
        Nat.ceil (|angle| / Real.pi) := by
      have := Nat.ceil_add_one (by positivity : (0:ℝ) ≤ |angle + 2 * Real.pi| / Real.pi)
      calc (Nat.ceil (|angle + 2 * Real.pi| / Real.pi) + 1 : ℕ)
          = Nat.ceil (|angle + 2 * Real.pi| / Real.pi + 1) := this.symm
        _ ≤ Nat.ceil (|angle| / Real.pi) := Nat.ceil_le_ceil h1
    omega
  · have h1 : Nat.ceil (|angle + 2 * Real.pi| / Real.pi) ≤ 1 := by
      apply Nat.ceil_le.mpr
      rw [div_le_iff₀ hπ]
      push_cast
      rw [one_mul, abs_le]
      constructor <;> linarith
    have h3 : 1 < Nat.ceil (|angle| / Real.pi) := by
      rw [Nat.lt_ceil]
      push_cast
      rw [lt_div_iff₀ hπ, one_mul]
      calc Real.pi < -angle := by linarith
        _ ≤ |angle| := neg_le_abs angle
    omega

/-- `worldToFrenet(params, worldX, worldY, worldHeading)` of `frenet.ts`. -/
noncomputable def worldToFrenet (params : CenterlineParams)
    (worldX worldY worldHeading : ℝ) : FrenetPose :=
  let near := nearestArcLength params (worldX, worldY)
  let pose := poseAtArcLength params near.s
  { s := near.s
    d := near.d
    heading := worldHeading
    headingError := normalizeAngle (worldHeading - pose.heading) }

/-- `frenetToWorld(params, s, d, headingError)` of `frenet.ts`. -/
noncomputable def frenetToWorld (params : CenterlineParams)
    (s d headingError : ℝ) : Vec2 × ℝ :=
  let pose := poseAtArcLength params s
  let perpHeading := pose.heading + Real.pi / 2
  ((pose.pos.1 + d * Real.cos perpHeading, pose.pos.2 + d * Real.sin perpHeading),
    normalizeAngle (pose.heading + headingError))

/-- `arcLengthRate(params, s, d, headingError, speed)` of `frenet.ts`. -/
noncomputable def arcLengthRate (params : CenterlineParams)
    (s d headingError speed : ℝ) : ℝ :=
  let pose := poseAtArcLength params s
  let denom := 1 + pose.curvature * d
  if |denom| < 1e-6 then 0 else speed * Real.cos headingError / denom

/-! ## Claim C9: coordinate round trips -/

/-- C9: for every point and sizes with nonzero width and height, the round
trips pixel → normalized → pixel and normalized → metric → normalized
return the original point exactly (hence within any relative tolerance,
in particular 1e-9). -/
theorem C9_roundtrips (pt : Pt) (p : Vec2) (px : SizePx) (m : SizeMeters)
    (hw : px.w ≠ 0) (hh : px.h ≠ 0) (hmw : m.w ≠ 0) (hmh : m.h ≠ 0) :
    normToPxPoint (pxToNormPoint pt px) px = pt ∧
    metersToNorm (normToMeters p m) m = p := by
  constructor
  · simp only [pxToNormPoint, normToPxPoint]
    cases pt with
    | mk x y => simp [div_mul_cancel₀, hw, hh]
  · simp only [normToMeters, metersToNorm]
    cases p with
    | mk a b =>
      simp only [Prod.mk.injEq]
      constructor
      · exact mul_div_cancel_right₀ a hmw
      · exact mul_div_cancel_right₀ b hmh

/-- Witness for C9 at a concrete point and sizes. -/
theorem C9_roundtrips_witness :
    normToPxPoint (pxToNormPoint ⟨3, 5⟩ ⟨64, 32⟩) ⟨64, 32⟩ = (⟨3, 5⟩ : Pt) ∧
    metersToNorm (normToMeters ((2 : ℝ), (7 : ℝ)) ⟨10, 20⟩) ⟨10, 20⟩ = ((2 : ℝ), (7 : ℝ)) :=
  C9_roundtrips ⟨3, 5⟩ (2, 7) ⟨64, 32⟩ ⟨10, 20⟩ (by norm_num) (by norm_num)
    (by norm_num) (by norm_num)

/-! ## Zones, `zone-query.ts` and the track-limits module -/

/-- A zone annotation (its optional numeric parameter map plays no role in
any claim). -/
structure Zone where
  id : String
  ztype : String
  poly : List Vec2

/-- `pointInPolygon(pt, poly)` — ray casting with the even-odd rule. This
function appears verbatim in both `zone-query.ts` and the track-limits
module; edges run from `poly[j]` to `poly[i]` with `j = i - 1` (wrapping
to the last vertex at `i = 0`). A horizontal edge fails the first
conjunct, so its division (total in ℝ) is never relevant. -/
noncomputable def pointInPolygon (pt : Vec2) (poly : List Vec2) : Bool :=
  (List.range poly.length).foldl (fun inside i =>
    let pi := poly.getD i (0, 0)
    let pj := poly.getD (if i = 0 then poly.length - 1 else i - 1) (0, 0)
    if Xor' (pi.2 > pt.2) (pj.2 > pt.2) ∧
        pt.1 < (pj.1 - pi.1) * (pt.2 - pi.2) / (pj.2 - pi.2) + pi.1 then
      !inside
    else inside) false

/-- `segmentDistanceSq(pt, a, b)` of `zone-query.ts`. -/
noncomputable def segmentDistanceSq (pt a b : Vec2) : ℝ :=
  let ab : Vec2 := (b.1 - a.1, b.2 - a.2)
  let ap : Vec2 := (pt.1 - a.1, pt.2 - a.2)
  let abLenSq := ab.1 * ab.1 + ab.2 * ab.2
  if abLenSq = 0 then ap.1 * ap.1 + ap.2 * ap.2
  else
    let t := max 0 (min 1 ((ap.1 * ab.1 + ap.2 * ab.2) / abLenSq))
    let cx := a.1 + ab.1 * t
    let cy := a.2 + ab.2 * t
    (pt.1 - cx) * (pt.1 - cx) + (pt.2 - cy) * (pt.2 - cy)

/-- `polygonDistance(pt, poly)` of `zone-query.ts`: square root of the
minimum squared edge distance (`Infinity` start modelled by `none`; all
callers guarantee a nonempty polygon). -/
noncomputable def polygonDistance (pt : Vec2) (poly : List Vec2) : ℝ :=
  let minSq := (List.range poly.length).foldl (fun m i =>
    let sq := segmentDistanceSq pt (poly.getD i (0, 0))
      (poly.getD ((i + 1) % poly.length) (0, 0))
    match m with
    | none => some sq
    | some v => if sq < v then some sq else m) none
  Real.sqrt (minSq.getD 0)

/-- `ZoneHit` of `zone-query.ts`. -/
structure ZoneHit where
  zone : Zone
  distance : ℝ

/-- `ZoneQueryResult` of `zone-query.ts`. -/
structure ZoneQueryResult where
  containing : List Zone
  nearest : Option ZoneHit

/-- One zone's step of `queryZonesAtPoint`'s loop. -/
noncomputable def zqStep (pt : Vec2) (st : List Zone × Option ZoneHit)
    (zone : Zone) : List Zone × Option ZoneHit :=
  if zone.poly.length < 3 then st
  else
    let inside := pointInPolygon pt zone.poly
    let containing := if inside then st.1 ++ [zone] else st.1
    let distance := if inside then 0 else polygonDistance pt zone.poly
    let nearest := match st.2 with
      | none => some ⟨zone, distance⟩
      | some h => if distance < h.distance then some ⟨zone, distance⟩ else st.2
    (containing, nearest)

/-- `queryZonesAtPoint(pt, zones, options)` of `zone-query.ts`; the
optional `maxDistance` is `none` when absent. -/
noncomputable def queryZonesAtPoint (pt : Vec2) (zones : List Zone)
    (maxDistance : Option ℝ := none) : ZoneQueryResult :=
  let st := zones.foldl (zqStep pt) ([], none)
  let nearest := match maxDistance, st.2 with
    | some md, some h => if h.distance > md then none else some h
    | _, nr => nr
  ⟨st.1, nearest⟩

/-- `pointToSegmentDistance(pt, a, b)` of the track-limits module (unlike
`segmentDistanceSq` it takes the square root per edge and guards with
`lenSq < 1e-10`). -/
noncomputable def pointToSegmentDistance (pt a b : Vec2) : ℝ :=
  let dx := b.1 - a.1
  let dy := b.2 - a.2
  let lenSq := dx * dx + dy * dy
  if lenSq < 1e-10 then hypot (pt.1 - a.1) (pt.2 - a.2)
  else
    let t := max 0 (min 1 (((pt.1 - a.1) * dx + (pt.2 - a.2) * dy) / lenSq))
    hypot (pt.1 - (a.1 + t * dx)) (pt.2 - (a.2 + t * dy))

/-- `pointToPolygonDistance(pt, poly)` of the track-limits module: signed
minimum edge distance, negative inside; `Infinity` (returned for polygons
with fewer than 3 vertices, and the scan's start value) is modelled by
`none`. -/
noncomputable def pointToPolygonDistance (pt : Vec2) (poly : List Vec2) : Option ℝ :=
  if poly.length < 3 then none
  else
    let minDist := (List.range poly.length).foldl (fun m i =>
      let dist := pointToSegmentDistance pt (poly.getD i (0, 0))
        (poly.getD ((i + 1) % poly.length) (0, 0))
      match m with
      | none => some dist
      | some v => if dist < v then some dist else m) none
    match minDist with
    | none => none
    | some v => some (if pointInPolygon pt poly then -v else v)

/-- `TrackLimits` of the track-limits module. -/
structure TrackLimits where
  leftBounds : List ℝ
  rightBounds : List ℝ
  samples : ℕ
  totalLength : ℝ

/-- The per-zone minimum update of `extractTrackLimits`
(`if (polyDist < minDist) minDist = polyDist`, `Infinity` as `none`). -/
noncomputable def tlMinUpdate (polyDist m : Option ℝ) : Option ℝ :=
  match polyDist, m with
  | some d, none => some d
  | some d, some v => if d < v then some d else some v
  | none, mv => mv

/-- The pair `(leftBounds[i], rightBounds[i])` that iteration `i` of
`extractTrackLimits` pushes. -/
noncomputable def tlSample (params : CenterlineParams) (zones : List Zone)
    (ds : ℝ) (i : ℕ) : ℝ × ℝ :=
  let pos := (poseAtArcLength params (i * ds)).pos
  let minDists := zones.foldl (fun (m : Option ℝ × Option ℝ) zone =>
    let polyDist := pointToPolygonDistance pos zone.poly
    (tlMinUpdate polyDist m.1, tlMinUpdate polyDist m.2)) (none, none)
  (match minDists.1 with
    | some m => -m
    | none => -0.5,
   match minDists.2 with
    | some m => m
    | none => 0.5)

/-- `extractTrackLimits(params, zones, numSamples)` of the track-limits
module (`numSamples` defaults to 100;
`ds = totalLength / Math.max(1, numSamples - 1)`). -/
noncomputable def extractTrackLimits (params : CenterlineParams)
    (zones : List Zone) (numSamples : ℕ := 100) : TrackLimits :=
  let ds := params.totalLength / ((max 1 (numSamples - 1) : ℕ) : ℝ)
  { leftBounds := (List.range numSamples).map (fun i => (tlSample params zones ds i).1)
    rightBounds := (List.range numSamples).map (fun i => (tlSample params zones ds i).2)
    samples := numSamples
    totalLength := params.totalLength }

/-- The concrete jump zone of the repository's zone-query tests
(scenario C): square `[(0.1,0.1),(0.4,0.1),(0.4,0.4),(0.1,0.4)]`. -/
noncomputable def jumpZone : Zone :=
  { id := "jump", ztype := "jump"
    poly := [(0.1, 0.1), (0.4, 0.1), (0.4, 0.4), (0.1, 0.4)] }

/-- Formalizes the C2 claim's words (not the source): the minimum-magnitude
signed distance across zones — the candidate whose absolute value is
smallest wins. Used only to compare the claimed aggregation with the
code's. -/
noncomputable def specMinMagnitude (pos : Vec2) (zones : List Zone) : Option ℝ :=
  zones.foldl (fun m zone =>
    match pointToPolygonDistance pos zone.poly, m with
    | some d, none => some d
    | some d, some v => if |d| < |v| then some d else some v
    | none, mv => mv) none

/-- Concrete two-point centerline `[(0,0),(1,0)]`. -/
noncomputable def twoPointCL : List Vec2 := [(0, 0), (1, 0)]

/-- Concrete zone containing the origin, every boundary edge at distance
`0.3`. -/
noncomputable def insideZone : Zone :=
  { id := "A", ztype := "jump"
    poly := [(-0.3, -0.3), (0.3, -0.3), (0.3, 0.3), (-0.3, 0.3)] }

/-- Concrete zone not containing the origin, nearest boundary edge (its
first) at distance `0.1`. -/
noncomputable def outsideZone : Zone :=
  { id := "B", ztype := "jump"
    poly := [(0.1, 0.1), (0.1, -0.1), (0.3, -0.1), (0.3, 0.1)] }

/-- Concrete three-point centerline `[(0,0),(1,0),(1,1)]`, whose closing
segment runs from `(1,1)` back to `(0,0)`. -/
noncomputable def threePointCL : List Vec2 := [(0, 0), (1, 0), (1, 1)]

/-- Concrete unit-square centerline `[(0,0),(1,0),(1,1),(0,1)]`, used as
evaluation input by several concrete theorems. -/
noncomputable def unitSquareCL : List Vec2 := [(0, 0), (1, 0), (1, 1), (0, 1)]

/-- Concrete demonstration quad `[(0,0),(100,0),(100,100),(0,100)]` in a
200×200 image, used as evaluation input by several concrete theorems. -/
noncomputable def demoQuad : List Pt := [⟨0, 0⟩, ⟨100, 0⟩, ⟨100, 100⟩, ⟨0, 100⟩]

/-! ## Generic helper lemmas -/

theorem atan2_one_zero : atan2 1 0 = Real.pi / 2 := by
  unfold atan2
  rw [show (⟨0, 1⟩ : ℂ) = Complex.I from Complex.ext (by simp) (by simp)]
  exact Complex.arg_I

theorem atan2_negone_zero : atan2 (-1) 0 = -(Real.pi / 2) := by
  unfold atan2
  rw [show (⟨0, -1⟩ : ℂ) = -Complex.I from Complex.ext (by simp) (by simp)]
  exact Complex.arg_neg_I

theorem getD_map_range {α : Type} (f : ℕ → α) (d : α) {n i : ℕ} (h : i < n) :
    ((List.range n).map f).getD i d = f i := by
  rw [List.getD_eq_getElem?_getD, List.getElem?_map, List.getElem?_range h]
  rfl

theorem sqrt_eval {a b : ℝ} (hb : 0 ≤ b) (h : b * b = a) : Real.sqrt a = b := by
  rw [← h]; exact Real.sqrt_mul_self hb

theorem parameterizeCenterline_ok {pts : List Vec2} {p : CenterlineParams} :
    parameterizeCenterline pts = .ok p ↔ 2 ≤ pts.length ∧ p = parameterizeCore pts := by
  unfold parameterizeCenterline
  split
  · rename_i hlt
    constructor
    · intro h; exact absurd h (by simp)
    · intro ⟨h2, _⟩; omega
  · rename_i hge
    constructor
    · intro h
      refine ⟨by omega, ?_⟩
      cases h; rfl
    · intro ⟨_, hp⟩; rw [hp]

theorem segLen_nonneg (pts : List Vec2) (i : ℕ) : 0 ≤ segLen pts i :=
  Real.sqrt_nonneg _

theorem arcLengthAt_nonneg (pts : List Vec2) (i : ℕ) : 0 ≤ arcLengthAt pts i :=
  Finset.sum_nonneg fun j _ => segLen_nonneg pts j

theorem arcLengthAt_mono (pts : List Vec2) {i j : ℕ} (h : i ≤ j) :
    arcLengthAt pts i ≤ arcLengthAt pts j :=
  Finset.sum_le_sum_of_subset_of_nonneg (Finset.range_subset.mpr h)
    (fun k _ _ => segLen_nonneg pts k)

theorem arcLengthsOf_getD (pts : List Vec2) {i : ℕ} (h : i < pts.length) :
    (arcLengthsOf pts).getD i 0 = arcLengthAt pts i :=
  getD_map_range _ _ h

theorem headingsOf_getD (pts : List Vec2) {i : ℕ} (h : i < pts.length) :
    (headingsOf pts).getD i 0 = atan2 (segDy pts i) (segDx pts i) :=
  getD_map_range _ _ h

theorem curvaturesOf_getD (pts : List Vec2) {i : ℕ} (h : i < pts.length) :
    (curvaturesOf pts).getD i 0 = curvatureAt pts i :=
  getD_map_range _ _ h

theorem totalLength_core (pts : List Vec2) (h : 1 ≤ pts.length) :
    (parameterizeCore pts).totalLength = arcLengthAt pts (pts.length - 1) :=
  arcLengthsOf_getD pts (by omega)

/-! ## Claim C5: totalLength excludes the closing segment -/

/-- C5: `totalLength` is the sum of the first `n − 1` segment lengths (the
closing segment is excluded), and on the square centerline
`[(0.1,0.1),(0.9,0.1),(0.9,0.9),(0.1,0.9)]` it equals `2.4` (not `3.2`). -/
theorem C5_totalLength_excludes_closing :
    (∀ (pts : List Vec2) (p : CenterlineParams), parameterizeCenterline pts = .ok p →
      p.totalLength = ∑ j in Finset.range (pts.length - 1), segLen pts j) ∧
    (parameterizeCore
        [((0.1 : ℝ), (0.1 : ℝ)), (0.9, 0.1), (0.9, 0.9), (0.1, 0.9)]).totalLength =
      2.4 := by
  constructor
  · intro pts p hp
    obtain ⟨h2, rfl⟩ := parameterizeCenterline_ok.mp hp
    rw [totalLength_core pts (by omega)]
    rfl
  · rw [totalLength_core _ (by norm_num)]
    show arcLengthAt _ 3 = 2.4
    unfold arcLengthAt
    rw [Finset.sum_range_succ, Finset.sum_range_succ, Finset.sum_range_succ,
      Finset.sum_range_zero]
    unfold segLen segDx segDy hypot
    norm_num
    rw [show (16 : ℝ) = 4 * 4 by norm_num, show (25 : ℝ) = 5 * 5 by norm_num,
      Real.sqrt_mul_self (by norm_num : (0 : ℝ) ≤ 4),
      Real.sqrt_mul_self (by norm_num : (0 : ℝ) ≤ 5)]
    norm_num

/-- Witness for C5's universally quantified part, instantiated on the
square centerline of scenario B. -/
theorem C5_totalLength_witness :
    (parameterizeCore
        [((0.1 : ℝ), (0.1 : ℝ)), (0.9, 0.1), (0.9, 0.9), (0.1, 0.9)]).totalLength =
      ∑ j in Finset.range 3, segLen
        [((0.1 : ℝ), (0.1 : ℝ)), (0.9, 0.1), (0.9, 0.9), (0.1, 0.9)] j :=
  C5_totalLength_excludes_closing.1
    [((0.1 : ℝ), (0.1 : ℝ)), (0.9, 0.1), (0.9, 0.9), (0.1, 0.9)] _
    (parameterizeCenterline_ok.mpr ⟨by norm_num, rfl⟩)

/-! ## Evaluation of the unit-square centerline -/

theorem unitSquareCL_length : unitSquareCL.length = 4 := by
  simp [unitSquareCL]

theorem unitSquare_segLen {j : ℕ} (hj : j < 4) : segLen unitSquareCL j = 1 := by
  have h1 : Real.sqrt ((1 : ℝ) * 1 + 0 * 0) = 1 := sqrt_eval (by norm_num) (by norm_num)
  have h2 : Real.sqrt ((0 : ℝ) * 0 + 1 * 1) = 1 := sqrt_eval (by norm_num) (by norm_num)
  have h3 : Real.sqrt ((-1 : ℝ) * -1 + 0 * 0) = 1 := sqrt_eval (by norm_num) (by norm_num)
  have h4 : Real.sqrt ((0 : ℝ) * 0 + (-1) * -1) = 1 := sqrt_eval (by norm_num) (by norm_num)
  interval_cases j <;>
    simp_all [segLen, segDx, segDy, hypot, unitSquareCL]

theorem unitSquare_arc {i : ℕ} (hi : i < 4) :
    (arcLengthsOf unitSquareCL).getD i 0 = i := by
  rw [arcLengthsOf_getD _ (by rw [unitSquareCL_length]; omega)]
  unfold arcLengthAt
  have hs : ∀ j < 4, segLen unitSquareCL j = 1 := fun j hj => unitSquare_segLen hj
  interval_cases i <;>
    norm_num [Finset.sum_range_succ, hs]

theorem unitSquare_H1 : (headingsOf unitSquareCL).getD 1 0 = Real.pi / 2 := by
  rw [headingsOf_getD _ (by rw [unitSquareCL_length]; omega)]
  have hdx : segDx unitSquareCL 1 = 0 := by simp [segDx, unitSquareCL]
  have hdy : segDy unitSquareCL 1 = 1 := by simp [segDy, unitSquareCL]
  rw [hdx, hdy, atan2_one_zero]

theorem unitSquare_H3 : (headingsOf unitSquareCL).getD 3 0 = -(Real.pi / 2) := by
  rw [headingsOf_getD _ (by rw [unitSquareCL_length]; omega)]
  have hdx : segDx unitSquareCL 3 = 0 := by simp [segDx, unitSquareCL]
  have hdy : segDy unitSquareCL 3 = -1 := by simp [segDy, unitSquareCL]
  rw [hdx, hdy, atan2_negone_zero]

/-! ## Claim C3: the curvature guard is on the signed dS -/

/-- C3 counterexample: on the unit-square centerline at index 0 the circular
arc-length difference is `dS = −2`, so `|dS| > 0.1`, yet the code's
curvature is `0` while the claim's formula value `(Δheading)/dS = −π/2`
is not `0`. -/
theorem C3_counterexample :
    |(parameterizeCore unitSquareCL).arcLengths.getD 1 0 -
        (parameterizeCore unitSquareCL).arcLengths.getD 3 0| > 0.1 ∧
    (parameterizeCore unitSquareCL).curvatures.getD 0 0 = 0 ∧
    ((parameterizeCore unitSquareCL).headings.getD 1 0 -
        (parameterizeCore unitSquareCL).headings.getD 3 0) /
      ((parameterizeCore unitSquareCL).arcLengths.getD 1 0 -
        (parameterizeCore unitSquareCL).arcLengths.getD 3 0) ≠ 0 := by
  have hA1 : (arcLengthsOf unitSquareCL).getD 1 0 = 1 := by
    rw [unitSquare_arc (by omega)]; norm_num
  have hA3 : (arcLengthsOf unitSquareCL).getD 3 0 = 3 := by
    rw [unitSquare_arc (by omega)]; norm_num
  have hcurv : (curvaturesOf unitSquareCL).getD 0 0 = 0 := by
    rw [curvaturesOf_getD _ (by rw [unitSquareCL_length]; omega)]
    unfold curvatureAt
    rw [unitSquareCL_length]
    have hA1q := hA1
    have hA3q := hA3
    rw [List.getD_eq_getElem?_getD] at hA1q hA3q
    norm_num [hA1q, hA3q]
  refine ⟨?_, ?_, ?_⟩
  · show |(arcLengthsOf unitSquareCL).getD 1 0 - (arcLengthsOf unitSquareCL).getD 3 0| > 0.1
    rw [hA1, hA3]; norm_num
  · exact hcurv
  · show ((headingsOf unitSquareCL).getD 1 0 - (headingsOf unitSquareCL).getD 3 0) /
        ((arcLengthsOf unitSquareCL).getD 1 0 - (arcLengthsOf unitSquareCL).getD 3 0) ≠ 0
    rw [hA1, hA3, unitSquare_H1, unitSquare_H3]
    have hπ := Real.pi_pos
    intro heq
    rw [div_eq_zero_iff] at heq
    rcases heq with h | h <;> nlinarith

/-- C3 (amended): `curvature[i] = (heading[(i+1) mod n] − heading[(i−1+n) mod n]) / dS`
whenever the signed circular difference `dS` exceeds `0.1`, and `0`
otherwise — the guard is on `dS` itself, not on `|dS|`. -/
theorem C3_curvature_amended (pts : List Vec2) (p : CenterlineParams)
    (hp : parameterizeCenterline pts = .ok p) (i : ℕ) (hi : i < pts.length) :
    p.curvatures.getD i 0 =
      if p.arcLengths.getD ((i + 1) % pts.length) 0 -
          p.arcLengths.getD ((i + pts.length - 1) % pts.length) 0 > 0.1 then
        (p.headings.getD ((i + 1) % pts.length) 0 -
            p.headings.getD ((i + pts.length - 1) % pts.length) 0) /
          (p.arcLengths.getD ((i + 1) % pts.length) 0 -
            p.arcLengths.getD ((i + pts.length - 1) % pts.length) 0)
      else 0 := by
  obtain ⟨h2, rfl⟩ := parameterizeCenterline_ok.mp hp
  have hidx : (i + pts.length - 1) % pts.length =
      if i = 0 then pts.length - 1 else i - 1 := by
    rcases Nat.eq_zero_or_pos i with h0 | h0
    · subst h0
      rw [if_pos rfl, Nat.zero_add]
      exact Nat.mod_eq_of_lt (by omega)
    · rw [if_neg (by omega)]
      have : i + pts.length - 1 = (i - 1) + pts.length := by omega
      rw [this, Nat.add_mod_right, Nat.mod_eq_of_lt (by omega)]
  show (curvaturesOf pts).getD i 0 = _
  rw [curvaturesOf_getD _ hi]
  unfold curvatureAt
  rw [hidx]
  rfl

/-- Witness for the amended C3 at the unit square, index 1 (where
`dS = 2 > 0.1`). -/
theorem C3_amended_witness :
    (parameterizeCore unitSquareCL).curvatures.getD 1 0 =
      if (parameterizeCore unitSquareCL).arcLengths.getD ((1 + 1) % unitSquareCL.length) 0 -
          (parameterizeCore unitSquareCL).arcLengths.getD
            ((1 + unitSquareCL.length - 1) % unitSquareCL.length) 0 > 0.1 then
        ((parameterizeCore unitSquareCL).headings.getD ((1 + 1) % unitSquareCL.length) 0 -
            (parameterizeCore unitSquareCL).headings.getD
              ((1 + unitSquareCL.length - 1) % unitSquareCL.length) 0) /
          ((parameterizeCore unitSquareCL).arcLengths.getD ((1 + 1) % unitSquareCL.length) 0 -
            (parameterizeCore unitSquareCL).arcLengths.getD
              ((1 + unitSquareCL.length - 1) % unitSquareCL.length) 0)
      else 0 :=
  C3_curvature_amended unitSquareCL _
    (parameterizeCenterline_ok.mpr ⟨by norm_num [unitSquareCL_length], rfl⟩) 1
    (by rw [unitSquareCL_length]; omega)

/-! ## Claim C7: validation monotonicity -/

theorem validate_ok_iff {pts : List Pt} {w h ms ma : ℝ} :
    validateQuadTLTRBRBL pts w h ms ma = .ok ↔
      pts.length = 4 ∧ (∀ p ∈ pts, inBounds p w h = true) ∧
      (∀ i ∈ List.range 4, ∀ j ∈ List.range 4, i < j →
        ms * ms ≤ dist2 (pts.getD i ⟨0, 0⟩) (pts.getD j ⟨0, 0⟩)) ∧
      isConvexQuad pts = true ∧ ma ≤ quadArea pts := by
  unfold validateQuadTLTRBRBL
  split_ifs with h1 h2 h3 h4 h5
  · simp only [false_iff]
    intro ⟨c1, _⟩
    exact h1 c1
  · simp only [false_iff]
    intro ⟨_, _, c3, _⟩
    obtain ⟨i, hi, j, hj, hij, hd⟩ := h3
    exact absurd (c3 i hi j hj hij) (not_le.mpr hd)
  · simp only [false_iff]
    intro ⟨_, _, _, c4, _⟩
    exact h4 c4
  · simp only [false_iff]
    intro ⟨_, _, _, _, c5⟩
    exact absurd c5 (not_le.mpr h5)
  · simp only [true_iff]
    push_neg at h3
    refine ⟨by omega, h2, ?_, by simpa using h4, not_lt.mp h5⟩
    intro i hi j hj hij
    exact h3 i hi j hj hij
  · simp only [false_iff]
    intro ⟨_, c2, _⟩
    exact h2 c2

theorem demoQuad_facts :
    demoQuad.length = 4 ∧ (∀ p ∈ demoQuad, inBounds p 200 200 = true) ∧
      (∀ i ∈ List.range 4, ∀ j ∈ List.range 4, i < j →
        (400 : ℝ) ≤ dist2 (demoQuad.getD i ⟨0, 0⟩) (demoQuad.getD j ⟨0, 0⟩)) ∧
      isConvexQuad demoQuad = true ∧ (5000 : ℝ) ≤ quadArea demoQuad := by
  have hrange : List.range 4 = [0, 1, 2, 3] := by decide
  refine ⟨by simp [demoQuad], ?_, ?_, ?_, ?_⟩
  · intro p hp
    simp only [demoQuad, List.mem_cons, List.not_mem_nil, or_false] at hp
    rcases hp with rfl | rfl | rfl | rfl <;>
      simp [inBounds] <;> norm_num
  · intro i hi j hj hij
    rw [hrange] at hi hj
    simp only [List.mem_cons, List.not_mem_nil, or_false] at hi hj
    rcases hi with rfl | rfl | rfl | rfl <;> rcases hj with rfl | rfl | rfl | rfl <;>
      first
        | omega
        | (simp only [demoQuad, dist2, List.getD]; norm_num)
  · simp only [isConvexQuad, demoQuad, List.getD, cross, jsSign]
    norm_num
  · simp only [quadArea, demoQuad, hrange, List.foldl, List.getD]
    norm_num

/-- C7 counterexample: the demonstration quad validates with
`(minSeparation, minArea) = (20, 5000)` but fails with
`(minSeparation', minArea') = (−200, 5000)` although `−200 ≤ 20`: the code
squares the separation threshold, so a negative threshold of larger
magnitude rejects the same quad. -/
theorem C7_counterexample :
    validateQuadTLTRBRBL demoQuad 200 200 20 5000 = .ok ∧
    (-200 : ℝ) ≤ 20 ∧ (5000 : ℝ) ≤ 5000 ∧
    validateQuadTLTRBRBL demoQuad 200 200 (-200) 5000 ≠ .ok := by
  obtain ⟨h4, hb, hfar, hconv, harea⟩ := demoQuad_facts
  refine ⟨?_, by norm_num, le_refl _, ?_⟩
  · rw [validate_ok_iff]
    refine ⟨h4, hb, ?_, hconv, harea⟩
    intro i hi j hj hij
    calc (20 : ℝ) * 20 = 400 := by norm_num
      _ ≤ _ := hfar i hi j hj hij
  · intro hok
    rw [validate_ok_iff] at hok
    obtain ⟨_, _, hfar2, _, _⟩ := hok
    have := hfar2 0 (by decide) 1 (by decide) (by omega)
    simp only [demoQuad, dist2, List.getD] at this
    norm_num at this

/-- C7 (amended): validation is monotone when thresholds stay nonnegative:
if `validateQuadTLTRBRBL` accepts with `(minSep, minArea)` then it accepts
with any `(minSep', minArea')` such that `0 ≤ minSep' ≤ minSep` and
`minArea' ≤ minArea`. -/
theorem C7_validate_monotone (pts : List Pt) (w h ms ma ms2 ma2 : ℝ)
    (hok : validateQuadTLTRBRBL pts w h ms ma = .ok)
    (hms0 : 0 ≤ ms2) (hms : ms2 ≤ ms) (hma : ma2 ≤ ma) :
    validateQuadTLTRBRBL pts w h ms2 ma2 = .ok := by
  rw [validate_ok_iff] at hok ⊢
  obtain ⟨h4, hb, hfar, hconv, harea⟩ := hok
  refine ⟨h4, hb, ?_, hconv, le_trans hma harea⟩
  intro i hi j hj hij
  have h1 : ms2 * ms2 ≤ ms * ms := mul_self_le_mul_self hms0 hms
  exact le_trans h1 (hfar i hi j hj hij)

/-- Witness for the amended C7: the demonstration quad stays valid when the
thresholds shrink from `(20, 5000)` to `(10, 4000)`. -/
theorem C7_monotone_witness :
    validateQuadTLTRBRBL demoQuad 200 200 10 4000 = .ok := by
  have hok : validateQuadTLTRBRBL demoQuad 200 200 20 5000 = .ok := by
    obtain ⟨h4, hb, hfar, hconv, harea⟩ := demoQuad_facts
    rw [validate_ok_iff]
    refine ⟨h4, hb, ?_, hconv, harea⟩
    intro i hi j hj hij
    calc (20 : ℝ) * 20 = 400 := by norm_num
      _ ≤ _ := hfar i hi j hj hij
  exact C7_validate_monotone demoQuad 200 200 20 5000 10 4000 hok (by norm_num)
    (by norm_num) (by norm_num)

/-! ## Claim C4: wrong point count throws -/

/-- C4 counterexample: on a 1-point input `orderQuadTLTRBRBLv2` throws
`Error('Need exactly 4 points')` (an exception, embedded as
`Except.error`), rather than returning a typed `InvalidPointCount`
result value. -/
theorem C4_counterexample :
    orderQuadTLTRBRBLv2 [⟨0, 0⟩] = .error reasonNeedFour := by
  unfold orderQuadTLTRBRBLv2
  rw [if_pos (by simp)]

/-- C4 (amended): for every input list whose length is not exactly 4,
`orderQuadTLTRBRBLv2` throws `Error('Need exactly 4 points')` — it does
not return a typed error result. -/
theorem C4_throws (raw : List Pt) (h : raw.length ≠ 4) :
    orderQuadTLTRBRBLv2 raw = .error reasonNeedFour := by
  unfold orderQuadTLTRBRBLv2
  rw [if_pos h]

/-- Witness for the amended C4 at a concrete 3-point input. -/
theorem C4_throws_witness :
    orderQuadTLTRBRBLv2 [⟨5, 5⟩, ⟨6, 6⟩, ⟨7, 7⟩] = .error reasonNeedFour :=
  C4_throws _ (by simp)

/-! ## Claim C8: a contained point yields nearest distance 0 -/

theorem polygonDistance_nonneg (pt : Vec2) (poly : List Vec2) :
    0 ≤ polygonDistance pt poly := Real.sqrt_nonneg _

theorem zqStep_dist_nonneg (pt : Vec2) (zone : Zone) :
    (0 : ℝ) ≤ if pointInPolygon pt zone.poly then 0 else polygonDistance pt zone.poly := by
  split
  · norm_num
  · exact polygonDistance_nonneg _ _

theorem zqStep_nonneg {pt : Vec2} {st : List Zone × Option ZoneHit} {zone : Zone}
    (hst : ∀ h, st.2 = some h → 0 ≤ h.distance) :
    ∀ h, (zqStep pt st zone).2 = some h → 0 ≤ h.distance := by
  intro h hh
  by_cases hl : zone.poly.length < 3
  · rw [zqStep, if_pos hl] at hh
    exact hst h hh
  · rw [zqStep, if_neg hl] at hh
    dsimp only at hh
    rcases hst2 : st.2 with _ | h0
    · rw [hst2] at hh
      dsimp only at hh
      cases hh
      exact zqStep_dist_nonneg pt zone
    · rw [hst2] at hh
      dsimp only at hh
      by_cases hlt : (if pointInPolygon pt zone.poly then (0:ℝ)
          else polygonDistance pt zone.poly) < h0.distance
      · rw [if_pos hlt] at hh
        cases hh
        exact zqStep_dist_nonneg pt zone
      · rw [if_neg hlt] at hh
        cases hh
        exact hst _ hst2

theorem zqStep_keeps_le_zero {pt : Vec2} {st : List Zone × Option ZoneHit}
    {zone : Zone} (hst : ∃ h, st.2 = some h ∧ h.distance ≤ 0) :
    ∃ h, (zqStep pt st zone).2 = some h ∧ h.distance ≤ 0 := by
  obtain ⟨h0, hh0, hle⟩ := hst
  by_cases hl : zone.poly.length < 3
  · rw [zqStep, if_pos hl]
    exact ⟨h0, hh0, hle⟩
  · rw [zqStep, if_neg hl]
    dsimp only
    rw [hh0]
    dsimp only
    by_cases hlt : (if pointInPolygon pt zone.poly then (0:ℝ)
        else polygonDistance pt zone.poly) < h0.distance
    · rw [if_pos hlt]
      exact ⟨_, rfl, le_trans (le_of_lt hlt) hle⟩
    · rw [if_neg hlt]
      exact ⟨h0, rfl, hle⟩

theorem zqStep_mem_mono {pt : Vec2} {st : List Zone × Option ZoneHit}
    {zone z : Zone} (hz : z ∈ st.1) : z ∈ (zqStep pt st zone).1 := by
  by_cases hl : zone.poly.length < 3
  · rw [zqStep, if_pos hl]
    exact hz
  · rw [zqStep, if_neg hl]
    dsimp only
    split
    · exact List.mem_append_left _ hz
    · exact hz

theorem zqStep_processes {pt : Vec2} {st : List Zone × Option ZoneHit} {z : Zone}
    (hlen : ¬ z.poly.length < 3) (hin : pointInPolygon pt z.poly = true) :
    z ∈ (zqStep pt st z).1 ∧ ∃ h, (zqStep pt st z).2 = some h ∧ h.distance ≤ 0 := by
  rw [zqStep, if_neg hlen]
  dsimp only
  rw [hin]
  constructor
  · rw [if_pos rfl]
    exact List.mem_append_right _ (List.mem_singleton_self z)
  · rw [if_pos rfl]
    rcases hst2 : st.2 with _ | h0
    · dsimp only
      exact ⟨_, rfl, le_refl 0⟩
    · dsimp only
      by_cases hlt : (0 : ℝ) < h0.distance
      · rw [if_pos hlt]
        exact ⟨_, rfl, le_refl 0⟩
      · rw [if_neg hlt]
        exact ⟨h0, rfl, not_lt.mp hlt⟩

theorem zq_fold_nonneg (pt : Vec2) (zs : List Zone) :
    ∀ st : List Zone × Option ZoneHit, (∀ h, st.2 = some h → 0 ≤ h.distance) →
    ∀ h, (zs.foldl (zqStep pt) st).2 = some h → 0 ≤ h.distance := by
  induction zs with
  | nil => intro st hst; exact hst
  | cons z zs ih =>
    intro st hst
    exact ih _ (zqStep_nonneg hst)

theorem zq_fold_keeps_le_zero (pt : Vec2) (zs : List Zone) :
    ∀ st : List Zone × Option ZoneHit, (∃ h, st.2 = some h ∧ h.distance ≤ 0) →
    ∃ h, (zs.foldl (zqStep pt) st).2 = some h ∧ h.distance ≤ 0 := by
  induction zs with
  | nil => intro st hst; exact hst
  | cons z zs ih =>
    intro st hst
    exact ih _ (zqStep_keeps_le_zero hst)

theorem zq_fold_mem_mono (pt : Vec2) (zs : List Zone) :
    ∀ st : List Zone × Option ZoneHit, ∀ {z : Zone}, z ∈ st.1 →
    z ∈ (zs.foldl (zqStep pt) st).1 := by
  induction zs with
  | nil => intro st z hz; exact hz
  | cons z' zs ih =>
    intro st z hz
    exact ih _ (zqStep_mem_mono hz)

theorem zq_fold_main (pt : Vec2) {z : Zone} (hlen : 3 ≤ z.poly.length)
    (hin : pointInPolygon pt z.poly = true) (zs : List Zone) :
    ∀ st : List Zone × Option ZoneHit, z ∈ zs →
    z ∈ (zs.foldl (zqStep pt) st).1 ∧
      ∃ h, (zs.foldl (zqStep pt) st).2 = some h ∧ h.distance ≤ 0 := by
  induction zs with
  | nil => intro st hz; exact absurd hz (List.not_mem_nil z)
  | cons z' zs ih =>
    intro st hz
    rcases List.mem_cons.mp hz with rfl | hz'
    · have hp := @zqStep_processes pt st z (not_lt.mpr hlen) hin
      exact ⟨zq_fold_mem_mono pt zs _ hp.1, zq_fold_keeps_le_zero pt zs _ hp.2⟩
    · exact ih _ hz'

/-- C8: a query point contained (by the even-odd ray-cast test, the spec's
§4.5 containment) in the polygon of some zone with at least 3 vertices is
listed in `containing`, and `nearest` reports distance exactly `0`, when
`queryZonesAtPoint` runs without a `maxDistance` option. -/
theorem C8_inside_zone (pt : Vec2) (zones : List Zone) (z : Zone)
    (hz : z ∈ zones) (hlen : 3 ≤ z.poly.length)
    (hin : pointInPolygon pt z.poly = true) :
    z ∈ (queryZonesAtPoint pt zones none).containing ∧
    ∃ hit, (queryZonesAtPoint pt zones none).nearest = some hit ∧
      hit.distance = 0 := by
  have hmain := zq_fold_main pt hlen hin zones ([], none) hz
  have hnn := zq_fold_nonneg pt zones ([], none) (by intro h hh; simp at hh)
  obtain ⟨hmem, hit, hhit, hle⟩ := hmain
  refine ⟨hmem, hit, ?_, le_antisymm hle (hnn hit hhit)⟩
  show (match (none : Option ℝ), (zones.foldl (zqStep pt) ([], none)).2 with
    | some md, some h => if h.distance > md then none else some h
    | _, nr => nr) = some hit
  rw [hhit]

theorem jumpZone_contains : pointInPolygon (0.2, 0.2) jumpZone.poly = true := by
  have hr : List.range 4 = [0, 1, 2, 3] := rfl
  norm_num [pointInPolygon, jumpZone, hr, Xor', List.getD]

/-- Witness for C8: scenario C — the point `(0.2, 0.2)` inside the jump
zone's square. -/
theorem C8_inside_witness :
    jumpZone ∈ (queryZonesAtPoint (0.2, 0.2) [jumpZone] none).containing ∧
    ∃ hit, (queryZonesAtPoint (0.2, 0.2) [jumpZone] none).nearest = some hit ∧
      hit.distance = 0 :=
  C8_inside_zone (0.2, 0.2) [jumpZone] jumpZone (List.mem_singleton_self _)
    (by norm_num [jumpZone]) jumpZone_contains

/-! ## Claims C1 and C10: the range of `nearestArcLength`'s `s` -/

theorem jsT_bounds (cond : Prop) [Decidable cond] (q : ℝ) :
    0 ≤ (if cond then max 0 (min 1 q) else 0) ∧
    (if cond then max 0 (min 1 q) else 0) ≤ 1 := by
  constructor
  · split
    · exact le_max_left 0 _
    · exact le_refl 0
  · split
    · exact max_le zero_le_one (min_le_left 1 q)
    · exact zero_le_one

theorem arcLengthAt_zero (pts : List Vec2) : arcLengthAt pts 0 = 0 := by
  simp [arcLengthAt]

/-- The `s` candidate of every scanned segment lies in `[0, totalLength]`. -/
theorem segCandidate_s_bounds (pts : List Vec2) (pt : Vec2) {i : ℕ}
    (hn : 2 ≤ pts.length) (hi : i < pts.length) :
    0 ≤ (segCandidate (parameterizeCore pts) pt i).s ∧
    (segCandidate (parameterizeCore pts) pt i).s ≤
      (parameterizeCore pts).totalLength := by
  unfold segCandidate
  dsimp only [parameterizeCore]
  rw [arcLengthsOf_getD pts hi,
    arcLengthsOf_getD pts (by omega : pts.length - 1 < pts.length)]
  have h0 : 0 ≤ arcLengthAt pts i := arcLengthAt_nonneg pts i
  by_cases hilast : i < pts.length - 1
  · rw [if_pos hilast, arcLengthsOf_getD pts (by omega : i + 1 < pts.length)]
    have h01 : arcLengthAt pts i ≤ arcLengthAt pts (i + 1) :=
      arcLengthAt_mono pts (by omega)
    have h1T : arcLengthAt pts (i + 1) ≤ arcLengthAt pts (pts.length - 1) :=
      arcLengthAt_mono pts (by omega)
    have hstep0 : ∀ t : ℝ, 0 ≤ t →
        0 ≤ arcLengthAt pts i + t * (arcLengthAt pts (i + 1) - arcLengthAt pts i) := by
      intro t ht; nlinarith
    have hstep1 : ∀ t : ℝ, 0 ≤ t → t ≤ 1 →
        arcLengthAt pts i + t * (arcLengthAt pts (i + 1) - arcLengthAt pts i) ≤
          arcLengthAt pts (pts.length - 1) := by
      intro t ht ht1; nlinarith
    constructor
    · split
      · exact hstep0 _ (le_max_left _ _)
      · exact hstep0 _ (le_refl 0)
    · split
      · exact hstep1 _ (le_max_left _ _) (max_le zero_le_one (min_le_left _ _))
      · exact hstep1 _ (le_refl 0) zero_le_one
  · rw [if_neg hilast, arcLengthsOf_getD pts (by omega : 0 < pts.length),
      arcLengthAt_zero]
    have hieq : i = pts.length - 1 := by omega
    rw [hieq]
    have hz : (0 : ℝ) + arcLengthAt pts (pts.length - 1) -
        arcLengthAt pts (pts.length - 1) = 0 := by ring
    rw [hz, mul_zero, add_zero]
    exact ⟨arcLengthAt_nonneg pts _, le_refl _⟩

theorem nearStep_eq_none {params : CenterlineParams} {pt : Vec2}
    {st : Option ℝ × ℝ × ℝ} {i : ℕ} (h : st.1 = none) :
    nearStep params pt st i = (some (segCandidate params pt i).distance,
      (segCandidate params pt i).s, (segCandidate params pt i).d) := by
  unfold nearStep
  rw [h]

theorem nearStep_eq_lt {params : CenterlineParams} {pt : Vec2}
    {st : Option ℝ × ℝ × ℝ} {i : ℕ} {m : ℝ} (h : st.1 = some m)
    (hlt : (segCandidate params pt i).distance < m) :
    nearStep params pt st i = (some (segCandidate params pt i).distance,
      (segCandidate params pt i).s, (segCandidate params pt i).d) := by
  unfold nearStep
  rw [h]
  dsimp only
  rw [if_pos hlt]

theorem nearStep_eq_ge {params : CenterlineParams} {pt : Vec2}
    {st : Option ℝ × ℝ × ℝ} {i : ℕ} {m : ℝ} (h : st.1 = some m)
    (hge : ¬ (segCandidate params pt i).distance < m) :
    nearStep params pt st i = st := by
  unfold nearStep
  rw [h]
  dsimp only
  rw [if_neg hge]

theorem nearFold_s_bounds (params : CenterlineParams) (pt : Vec2) (T : ℝ)
    (l : List ℕ) :
    ∀ st : Option ℝ × ℝ × ℝ,
      (∀ i ∈ l, 0 ≤ (segCandidate params pt i).s ∧ (segCandidate params pt i).s ≤ T) →
      0 ≤ st.2.1 → st.2.1 ≤ T →
      0 ≤ (l.foldl (nearStep params pt) st).2.1 ∧
        (l.foldl (nearStep params pt) st).2.1 ≤ T := by
  induction l with
  | nil => intro st _ h0 h1; exact ⟨h0, h1⟩
  | cons i l ih =>
    intro st hcand h0 h1
    have hci := hcand i (List.mem_cons_self i l)
    have hrest : ∀ j ∈ l, 0 ≤ (segCandidate params pt j).s ∧
        (segCandidate params pt j).s ≤ T :=
      fun j hj => hcand j (List.mem_cons_of_mem i hj)
    rw [List.foldl_cons]
    rcases hst : st.1 with _ | m
    · rw [nearStep_eq_none hst]
      exact ih _ hrest hci.1 hci.2
    · by_cases hlt : (segCandidate params pt i).distance < m
      · rw [nearStep_eq_lt hst hlt]
        exact ih _ hrest hci.1 hci.2
      · rw [nearStep_eq_ge hst hlt]
        exact ih _ hrest h0 h1

theorem nearFold_min_mem (params : CenterlineParams) (pt : Vec2) (l : List ℕ) :
    ∀ st : Option ℝ × ℝ × ℝ,
      (l.foldl (nearStep params pt) st).1 = st.1 ∧
        (l.foldl (nearStep params pt) st).2 = st.2 ∨
      ∃ i ∈ l, (l.foldl (nearStep params pt) st).1 =
        some ((segCandidate params pt i).distance) := by
  induction l with
  | nil => intro st; exact Or.inl ⟨rfl, rfl⟩
  | cons i l ih =>
    intro st
    rw [List.foldl_cons]
    rcases hst : st.1 with _ | m
    · rw [nearStep_eq_none hst]
      rcases ih (some (segCandidate params pt i).distance,
          (segCandidate params pt i).s, (segCandidate params pt i).d) with ⟨h1, _⟩ | ⟨j, hj, hjd⟩
      · exact Or.inr ⟨i, List.mem_cons_self i l, h1⟩
      · exact Or.inr ⟨j, List.mem_cons_of_mem i hj, hjd⟩
    · by_cases hlt : (segCandidate params pt i).distance < m
      · rw [nearStep_eq_lt hst hlt]
        rcases ih (some (segCandidate params pt i).distance,
            (segCandidate params pt i).s, (segCandidate params pt i).d) with ⟨h1, _⟩ | ⟨j, hj, hjd⟩
        · exact Or.inr ⟨i, List.mem_cons_self i l, h1⟩
        · exact Or.inr ⟨j, List.mem_cons_of_mem i hj, hjd⟩
      · rw [nearStep_eq_ge hst hlt]
        rcases ih st with ⟨h1, h2⟩ | ⟨j, hj, hjd⟩
        · exact Or.inl ⟨h1.trans hst, h2⟩
        · exact Or.inr ⟨j, List.mem_cons_of_mem i hj, hjd⟩

/-- When the closing segment's distance beats every earlier segment's
strictly, the scan returns the closing segment's candidate. -/
theorem nearestArcLength_last_wins (params : CenterlineParams) (pt : Vec2)
    (hn : 1 ≤ params.points.length)
    (hmin : ∀ i < params.points.length - 1,
      (segCandidate params pt (params.points.length - 1)).distance <
        (segCandidate params pt i).distance) :
    (nearestArcLength params pt).s =
      (segCandidate params pt (params.points.length - 1)).s := by
  unfold nearestArcLength
  have hsplit : List.range params.points.length =
      List.range (params.points.length - 1) ++ [params.points.length - 1] := by
    conv_lhs => rw [show params.points.length = (params.points.length - 1) + 1 by omega]
    rw [List.range_succ]
  rw [hsplit, List.foldl_append, List.foldl_cons, List.foldl_nil]
  set st := (List.range (params.points.length - 1)).foldl (nearStep params pt)
    (none, 0, 0) with hst_def
  rcases nearFold_min_mem params pt (List.range (params.points.length - 1))
      (none, 0, 0) with ⟨h1, _⟩ | ⟨j, hj, hjd⟩
  · rw [nearStep_eq_none (by rw [← hst_def] at h1; exact h1)]
  · have hjlt : j < params.points.length - 1 := List.mem_range.mp hj
    rw [nearStep_eq_lt (by rw [← hst_def] at hjd; exact hjd) (hmin j hjlt)]

/-- On a parameterized centerline the closing segment's `s` candidate is
exactly `totalLength` (both its arc-length bounds equal `totalLength`). -/
theorem segCandidate_closing (pts : List Vec2) (pt : Vec2) (hn : 2 ≤ pts.length) :
    (segCandidate (parameterizeCore pts) pt (pts.length - 1)).s =
      (parameterizeCore pts).totalLength := by
  have hT : (parameterizeCore pts).totalLength = arcLengthAt pts (pts.length - 1) :=
    totalLength_core pts (by omega)
  unfold segCandidate
  dsimp only [parameterizeCore]
  rw [arcLengthsOf_getD pts (by omega : pts.length - 1 < pts.length),
    if_neg (by omega : ¬ pts.length - 1 < pts.length - 1),
    arcLengthsOf_getD pts (by omega : 0 < pts.length), arcLengthAt_zero]
  ring

/-- C10: when the query point's strictly-minimum-distance segment is the
closing one, `nearestArcLength` returns `s = totalLength` exactly,
regardless of where on the closing segment the projection falls. -/
theorem C10_closing_segment_s (pts : List Vec2) (p : CenterlineParams)
    (hp : parameterizeCenterline pts = .ok p) (hT : 0 < p.totalLength) (pt : Vec2)
    (hmin : ∀ i < pts.length - 1,
      (segCandidate p pt (pts.length - 1)).distance <
        (segCandidate p pt i).distance) :
    (nearestArcLength p pt).s = p.totalLength := by
  obtain ⟨h2, rfl⟩ := parameterizeCenterline_ok.mp hp
  rw [nearestArcLength_last_wins _ _ (by exact (by omega : 1 ≤ pts.length)) hmin]
  exact segCandidate_closing pts pt h2

theorem worldToFrenet_s (p : CenterlineParams) (x y heading : ℝ) :
    (worldToFrenet p x y heading).s = (nearestArcLength p (x, y)).s := rfl

/-- C1 (amended): the `s` of `worldToFrenet` lies in the closed interval
`[0, totalLength]` (it attains `totalLength`, so the half-open interval of
the original claim is off by the right endpoint). -/
theorem C1_s_in_closed_range (pts : List Vec2) (p : CenterlineParams)
    (hp : parameterizeCenterline pts = .ok p) (hT : 0 < p.totalLength)
    (x y heading : ℝ) :
    0 ≤ (worldToFrenet p x y heading).s ∧
      (worldToFrenet p x y heading).s ≤ p.totalLength := by
  obtain ⟨h2, rfl⟩ := parameterizeCenterline_ok.mp hp
  rw [worldToFrenet_s]
  unfold nearestArcLength
  exact nearFold_s_bounds (parameterizeCore pts) (x, y) _
    (List.range (parameterizeCore pts).points.length) (none, 0, 0)
    (fun i hi => segCandidate_s_bounds pts (x, y) h2 (List.mem_range.mp hi))
    (le_refl 0) (le_of_lt hT)

theorem threePoint_len : threePointCL.length = 3 := by simp [threePointCL]

theorem threePoint_segLen {j : ℕ} (hj : j < 2) : segLen threePointCL j = 1 := by
  have h1 : Real.sqrt ((1 : ℝ) * 1 + 0 * 0) = 1 := sqrt_eval (by norm_num) (by norm_num)
  have h2 : Real.sqrt ((0 : ℝ) * 0 + 1 * 1) = 1 := sqrt_eval (by norm_num) (by norm_num)
  interval_cases j <;>
    simp_all [segLen, segDx, segDy, hypot, threePointCL]

theorem threePoint_total : (parameterizeCore threePointCL).totalLength = 2 := by
  rw [totalLength_core _ (by rw [threePoint_len]; omega), threePoint_len]
  unfold arcLengthAt
  rw [Finset.sum_range_succ, Finset.sum_range_succ, Finset.sum_range_zero,
    threePoint_segLen (by omega), threePoint_segLen (by omega)]
  norm_num

theorem threePoint_ok :
    parameterizeCenterline threePointCL = .ok (parameterizeCore threePointCL) :=
  parameterizeCenterline_ok.mpr ⟨by rw [threePoint_len]; omega, rfl⟩

theorem threePoint_dist0 :
    (segCandidate (parameterizeCore threePointCL) (0.5, 0.5) 0).distance = 0.5 := by
  have h4 : Real.sqrt 4 = 2 := sqrt_eval (by norm_num) (by norm_num)
  unfold segCandidate hypot
  dsimp only [parameterizeCore]
  norm_num [threePointCL, List.getD, min_def, max_def, h4]

theorem threePoint_dist1 :
    (segCandidate (parameterizeCore threePointCL) (0.5, 0.5) 1).distance = 0.5 := by
  have h4 : Real.sqrt 4 = 2 := sqrt_eval (by norm_num) (by norm_num)
  unfold segCandidate hypot
  dsimp only [parameterizeCore]
  norm_num [threePointCL, List.getD, min_def, max_def, h4]

theorem threePoint_dist2 :
    (segCandidate (parameterizeCore threePointCL) (0.5, 0.5) 2).distance = 0 := by
  unfold segCandidate hypot
  dsimp only [parameterizeCore]
  norm_num [threePointCL, List.getD, min_def, max_def]

theorem threePoint_closing_min :
    ∀ i < threePointCL.length - 1,
      (segCandidate (parameterizeCore threePointCL) (0.5, 0.5)
          (threePointCL.length - 1)).distance <
        (segCandidate (parameterizeCore threePointCL) (0.5, 0.5) i).distance := by
  rw [threePoint_len]
  intro i hi
  show (segCandidate (parameterizeCore threePointCL) (0.5, 0.5) 2).distance < _
  rw [threePoint_dist2]
  interval_cases i
  · rw [threePoint_dist0]; norm_num
  · rw [threePoint_dist1]; norm_num

/-- C1 counterexample: on the centerline `[(0,0),(1,0),(1,1)]` the world
point `(0.5, 0.5)` projects onto the closing segment, and `worldToFrenet`
returns `s = totalLength = 2`, which is not inside `[0, totalLength)`. -/
theorem C1_counterexample :
    parameterizeCenterline threePointCL = .ok (parameterizeCore threePointCL) ∧
    0 < (parameterizeCore threePointCL).totalLength ∧
    ¬ ((worldToFrenet (parameterizeCore threePointCL) 0.5 0.5 0).s <
        (parameterizeCore threePointCL).totalLength) := by
  refine ⟨threePoint_ok, by rw [threePoint_total]; norm_num, ?_⟩
  rw [worldToFrenet_s]
  have hs : (nearestArcLength (parameterizeCore threePointCL) (0.5, 0.5)).s =
      (parameterizeCore threePointCL).totalLength := by
    rw [nearestArcLength_last_wins _ _ (by rw [show (parameterizeCore threePointCL).points.length = 3 from threePoint_len]; omega)
      (by rw [show (parameterizeCore threePointCL).points.length = threePointCL.length from rfl]; exact threePoint_closing_min)]
    exact segCandidate_closing threePointCL (0.5, 0.5) (by rw [threePoint_len]; omega)
  rw [hs]
  exact lt_irrefl _

/-- Witness for the amended C1, instantiated on the three-point
centerline. -/
theorem C1_s_range_witness :
    0 ≤ (worldToFrenet (parameterizeCore threePointCL) 0.5 0.5 0).s ∧
      (worldToFrenet (parameterizeCore threePointCL) 0.5 0.5 0).s ≤
        (parameterizeCore threePointCL).totalLength :=
  C1_s_in_closed_range threePointCL _ threePoint_ok
    (by rw [threePoint_total]; norm_num) 0.5 0.5 0

/-- Witness for C10: on `[(0,0),(1,0),(1,1)]` the point `(0.5, 0.5)` lies on
the closing segment (distance 0, strictly below the other segments'
distance 0.5), and the returned `s` is exactly `totalLength`. -/
theorem C10_closing_witness :
    (nearestArcLength (parameterizeCore threePointCL) (0.5, 0.5)).s =
      (parameterizeCore threePointCL).totalLength :=
  C10_closing_segment_s threePointCL _ threePoint_ok
    (by rw [threePoint_total]; norm_num) (0.5, 0.5) threePoint_closing_min

/-! ## Claim C2: track-limit bounds aggregation -/

theorem tlMinUpdate_none (m : Option ℝ) : tlMinUpdate none m = m := by
  cases m <;> rfl

theorem tlMinUpdate_some_some (d v : ℝ) :
    tlMinUpdate (some d) (some v) = some (min d v) := by
  unfold tlMinUpdate
  dsimp only
  rcases lt_trichotomy d v with h | h | h
  · rw [if_pos h, min_eq_left (le_of_lt h)]
  · rw [h, if_neg (lt_irrefl v), min_self]
  · rw [if_neg (not_lt.mpr (le_of_lt h)), min_eq_right (le_of_lt h)]

theorem tlMin_fold_eq (f : Zone → Option ℝ) (zs : List Zone) :
    ∀ acc : Option ℝ,
      zs.foldl (fun m z => tlMinUpdate (f z) m) acc =
      match acc, (zs.filterMap f).min? with
      | none, r => r
      | some v, none => some v
      | some v, some r => some (min v r) := by
  induction zs with
  | nil => intro acc; cases acc <;> rfl
  | cons z zs ih =>
    intro acc
    rw [List.foldl_cons, ih (tlMinUpdate (f z) acc)]
    rcases hfz : f z with _ | d
    · rw [List.filterMap_cons_none hfz, tlMinUpdate_none]
    · rw [List.filterMap_cons_some hfz]
      rcases acc with _ | v
      · show (match (some d : Option ℝ), zs.filterMap f |>.min? with
          | none, r => r
          | some v, none => some v
          | some v, some r => some (min v r)) = _
        rcases hmin : (zs.filterMap f).min? with _ | r
        · simp [List.min?_cons, hmin]
        · simp [List.min?_cons, hmin]
      · rw [tlMinUpdate_some_some]
        rcases hmin : (zs.filterMap f).min? with _ | r
        · simp [List.min?_cons, hmin, min_comm]
        · simp only [List.min?_cons, hmin, Option.elim]
          rw [min_comm d v, min_assoc]

theorem tl_fold_pair (f : Zone → Option ℝ) (zs : List Zone) :
    ∀ ab : Option ℝ × Option ℝ,
      zs.foldl (fun m z => (tlMinUpdate (f z) m.1, tlMinUpdate (f z) m.2)) ab =
      (zs.foldl (fun m z => tlMinUpdate (f z) m) ab.1,
       zs.foldl (fun m z => tlMinUpdate (f z) m) ab.2) := by
  induction zs with
  | nil => intro ab; rfl
  | cons z zs ih =>
    intro ab
    rw [List.foldl_cons, ih, List.foldl_cons, List.foldl_cons]

/-- C2 (amended): both bounds are derived from the same per-sample value
`m`, the plain signed minimum (not the minimum-magnitude one) of the
signed zone distances: `leftBounds[i] = −m` and `rightBounds[i] = +m`,
with defaults `∓0.5` when no zone yields a finite distance. -/
theorem C2_bounds_amended (params : CenterlineParams) (zones : List Zone)
    (numSamples : ℕ) (i : ℕ) (hi : i < numSamples) :
    (extractTrackLimits params zones numSamples).leftBounds.getD i 0 =
      (match (zones.filterMap (fun z => pointToPolygonDistance
          (poseAtArcLength params (i * (params.totalLength /
            ((max 1 (numSamples - 1) : ℕ) : ℝ)))).pos z.poly)).min? with
        | some m => -m
        | none => -0.5) ∧
    (extractTrackLimits params zones numSamples).rightBounds.getD i 0 =
      (match (zones.filterMap (fun z => pointToPolygonDistance
          (poseAtArcLength params (i * (params.totalLength /
            ((max 1 (numSamples - 1) : ℕ) : ℝ)))).pos z.poly)).min? with
        | some m => m
        | none => 0.5) := by
  unfold extractTrackLimits
  dsimp only
  rw [getD_map_range _ _ hi, getD_map_range _ _ hi]
  unfold tlSample
  dsimp only
  rw [tl_fold_pair (fun z => pointToPolygonDistance
    (poseAtArcLength params (i * (params.totalLength /
      ((max 1 (numSamples - 1) : ℕ) : ℝ)))).pos z.poly) zones ((none, none))]
  rw [tlMin_fold_eq]
  dsimp only
  rcases (zones.filterMap (fun z => pointToPolygonDistance
      (poseAtArcLength params (i * (params.totalLength /
        ((max 1 (numSamples - 1) : ℕ) : ℝ)))).pos z.poly)).min? with _ | m
  · exact ⟨rfl, rfl⟩
  · exact ⟨rfl, rfl⟩

theorem twoPoint_len : twoPointCL.length = 2 := by simp [twoPointCL]

theorem twoPoint_arc0 : (arcLengthsOf twoPointCL).getD 0 0 = 0 := by
  rw [arcLengthsOf_getD _ (by rw [twoPoint_len]; omega)]
  exact arcLengthAt_zero _

theorem twoPoint_arc1 : (arcLengthsOf twoPointCL).getD 1 0 = 1 := by
  rw [arcLengthsOf_getD _ (by rw [twoPoint_len]; omega)]
  unfold arcLengthAt
  rw [Finset.sum_range_one]
  have h1 : Real.sqrt ((1 : ℝ) * 1 + 0 * 0) = 1 := sqrt_eval (by norm_num) (by norm_num)
  simp_all [segLen, segDx, segDy, hypot, twoPointCL]

theorem twoPoint_total : (parameterizeCore twoPointCL).totalLength = 1 := by
  rw [totalLength_core _ (by rw [twoPoint_len]; omega), twoPoint_len]
  have := twoPoint_arc1
  rw [arcLengthsOf_getD _ (by rw [twoPoint_len]; omega)] at this
  exact this

theorem jsMod_zero_one : jsMod 0 1 = 0 := by
  unfold jsMod trunc
  norm_num

theorem jsMod_one_one : jsMod 1 1 = 0 := by
  unfold jsMod trunc
  norm_num

theorem twoPoint_pose0 :
    (poseAtArcLength (parameterizeCore twoPointCL) 0).pos = (0 : Vec2) := by
  unfold poseAtArcLength
  dsimp only
  rw [twoPoint_total, jsMod_zero_one, zero_add, jsMod_one_one]
  have hlenA : (parameterizeCore twoPointCL).arcLengths.length = 2 := by
    simp [parameterizeCore, arcLengthsOf, twoPointCL]
  rw [hlenA, show List.range 2 = [0, 1] from rfl]
  have e0 : (decide ((parameterizeCore twoPointCL).arcLengths.getD 0 0 > (0 : ℝ))) =
      false := by
    rw [show (parameterizeCore twoPointCL).arcLengths = arcLengthsOf twoPointCL from rfl,
      twoPoint_arc0]
    exact decide_eq_false (by norm_num)
  have e1 : (decide ((parameterizeCore twoPointCL).arcLengths.getD 1 0 > (0 : ℝ))) =
      true := by
    rw [show (parameterizeCore twoPointCL).arcLengths = arcLengthsOf twoPointCL from rfl,
      twoPoint_arc1]
    exact decide_eq_true (by norm_num)
  rw [List.find?_cons, e0]
  dsimp only
  rw [List.find?_cons, e1]
  dsimp only
  have hplen : (parameterizeCore twoPointCL).points.length = 2 := twoPoint_len
  rw [hplen]
  have a0 : (parameterizeCore twoPointCL).arcLengths.getD 0 0 = 0 := twoPoint_arc0
  have a1 : (parameterizeCore twoPointCL).arcLengths.getD 1 0 = 1 := twoPoint_arc1
  have hp0 : (parameterizeCore twoPointCL).points.getD 0 (0, 0) = (0 : Vec2) := by
    simp [parameterizeCore, twoPointCL]
  have hp1 : (parameterizeCore twoPointCL).points.getD 1 (0, 0) = ((1 : ℝ), (0 : ℝ)) := by
    simp [parameterizeCore, twoPointCL]
  simp only [show (1 : ℕ) - 1 = 0 from rfl, show (2 : ℕ) - 2 = 0 from rfl, min_self,
    show (0 : ℕ) + 1 = 1 from rfl]
  rw [a0, a1, hp0, hp1]
  rw [if_pos (by norm_num : (1 : ℝ) > 0)]
  norm_num

theorem insideZone_edge {i : ℕ} (hi : i < 4) :
    pointToSegmentDistance (0 : Vec2) (insideZone.poly.getD i (0, 0))
      (insideZone.poly.getD ((i + 1) % 4) (0, 0)) = 0.3 := by
  have h9 : Real.sqrt 9 = 3 := sqrt_eval (by norm_num) (by norm_num)
  have h100 : Real.sqrt 100 = 10 := sqrt_eval (by norm_num) (by norm_num)
  interval_cases i <;>
    · unfold pointToSegmentDistance hypot
      norm_num [insideZone, List.getD, min_def, max_def, h9, h100]

theorem insideZone_contains : pointInPolygon (0 : Vec2) insideZone.poly = true := by
  have hr : List.range 4 = [0, 1, 2, 3] := rfl
  norm_num [pointInPolygon, insideZone, hr, Xor', List.getD]

theorem insideZone_ptpd :
    pointToPolygonDistance (0 : Vec2) insideZone.poly = some (-0.3) := by
  unfold pointToPolygonDistance
  rw [if_neg (by norm_num [insideZone])]
  have hl : insideZone.poly.length = 4 := by norm_num [insideZone]
  rw [hl, show List.range 4 = [0, 1, 2, 3] from rfl]
  simp only [List.foldl]
  rw [insideZone_edge (by omega : (0:ℕ) < 4), insideZone_edge (by omega : (1:ℕ) < 4),
    insideZone_edge (by omega : (2:ℕ) < 4), insideZone_edge (by omega : (3:ℕ) < 4)]
  norm_num [insideZone_contains]

theorem outsideZone_edge0 :
    pointToSegmentDistance (0 : Vec2) (outsideZone.poly.getD 0 (0, 0))
      (outsideZone.poly.getD ((0 + 1) % 4) (0, 0)) = 0.1 := by
  have h1 : Real.sqrt 1 = 1 := sqrt_eval (by norm_num) (by norm_num)
  have h100 : Real.sqrt 100 = 10 := sqrt_eval (by norm_num) (by norm_num)
  unfold pointToSegmentDistance hypot
  norm_num [outsideZone, List.getD, min_def, max_def, h1, h100]

theorem outsideZone_edge1 :
    pointToSegmentDistance (0 : Vec2) (outsideZone.poly.getD 1 (0, 0))
      (outsideZone.poly.getD ((1 + 1) % 4) (0, 0)) = Real.sqrt 0.02 := by
  unfold pointToSegmentDistance hypot
  norm_num [outsideZone, List.getD, min_def, max_def]

theorem outsideZone_edge2 :
    pointToSegmentDistance (0 : Vec2) (outsideZone.poly.getD 2 (0, 0))
      (outsideZone.poly.getD ((2 + 1) % 4) (0, 0)) = 0.3 := by
  have h9 : Real.sqrt 9 = 3 := sqrt_eval (by norm_num) (by norm_num)
  have h100 : Real.sqrt 100 = 10 := sqrt_eval (by norm_num) (by norm_num)
  unfold pointToSegmentDistance hypot
  norm_num [outsideZone, List.getD, min_def, max_def, h9, h100]

theorem outsideZone_edge3 :
    pointToSegmentDistance (0 : Vec2) (outsideZone.poly.getD 3 (0, 0))
      (outsideZone.poly.getD ((3 + 1) % 4) (0, 0)) = Real.sqrt 0.02 := by
  unfold pointToSegmentDistance hypot
  norm_num [outsideZone, List.getD, min_def, max_def]

theorem sqrt_002_ge : ¬ (Real.sqrt 0.02 < 0.1) := by
  have h : (0.1 : ℝ) = Real.sqrt 0.01 := (sqrt_eval (by norm_num) (by norm_num)).symm
  rw [h]
  exact not_lt.mpr (Real.sqrt_le_sqrt (by norm_num))

theorem outsideZone_not_contains :
    pointInPolygon (0 : Vec2) outsideZone.poly = false := by
  have hr : List.range 4 = [0, 1, 2, 3] := rfl
  norm_num [pointInPolygon, outsideZone, hr, Xor', List.getD]

theorem outsideZone_ptpd :
    pointToPolygonDistance (0 : Vec2) outsideZone.poly = some 0.1 := by
  unfold pointToPolygonDistance
  rw [if_neg (by norm_num [outsideZone])]
  have hl : outsideZone.poly.length = 4 := by norm_num [outsideZone]
  rw [hl, show List.range 4 = [0, 1, 2, 3] from rfl]
  simp only [List.foldl]
  rw [outsideZone_edge0, outsideZone_edge1, outsideZone_edge2, outsideZone_edge3]
  have c1 : ¬ ((0.3 : ℝ) < 0.1) := by norm_num
  have c3 : ¬ ((Real.sqrt 50)⁻¹ < 1 / 10) := by
    rw [not_lt]
    have h1 : (1 : ℝ) / 10 = Real.sqrt (1 / 100) := by
      rw [sqrt_eval (by norm_num : (0 : ℝ) ≤ 1 / 10) (by norm_num)]
    rw [h1, ← Real.sqrt_inv]
    apply Real.sqrt_le_sqrt
    norm_num
  simp only [c1, sqrt_002_ge]
  norm_num [outsideZone_not_contains, c3]

/-- C2 counterexample: with the two-point centerline, one sample at the
origin, a zone containing the origin at boundary distance `0.3` and a
zone outside at distance `0.1`: the minimum-magnitude signed distance is
`+0.1`, so the claim predicts `leftBounds[0] = −0.1`; the code instead
takes the plain signed minimum `−0.3` and pushes `leftBounds[0] = +0.3`
(and `rightBounds[0] = −0.3`). -/
theorem C2_counterexample :
    (extractTrackLimits (parameterizeCore twoPointCL) [insideZone, outsideZone]
        1).leftBounds.getD 0 0 = 0.3 ∧
    (extractTrackLimits (parameterizeCore twoPointCL) [insideZone, outsideZone]
        1).rightBounds.getD 0 0 = -0.3 ∧
    (poseAtArcLength (parameterizeCore twoPointCL)
        (0 * ((parameterizeCore twoPointCL).totalLength /
          ((max 1 (1 - 1) : ℕ) : ℝ)))).pos = ((0 : ℝ), (0 : ℝ)) ∧
    specMinMagnitude (0 : Vec2) [insideZone, outsideZone] = some 0.1 ∧
    (0.3 : ℝ) ≠ -(0.1) := by
  have hsample : tlSample (parameterizeCore twoPointCL) [insideZone, outsideZone]
      ((parameterizeCore twoPointCL).totalLength / ((max 1 (1 - 1) : ℕ) : ℝ)) 0 =
      (0.3, -0.3) := by
    unfold tlSample
    rw [Nat.cast_zero, zero_mul, twoPoint_pose0]
    simp only [List.foldl]
    try dsimp only
    rw [insideZone_ptpd, outsideZone_ptpd]
    have h1 : tlMinUpdate (some (-0.3)) none = some (-0.3) := rfl
    rw [h1, tlMinUpdate_some_some,
      min_eq_right (by norm_num : (-0.3 : ℝ) ≤ 0.1)]
    norm_num
  refine ⟨?_, ?_, ?_, ?_, by norm_num⟩
  · unfold extractTrackLimits
    dsimp only
    rw [getD_map_range _ _ (by omega : (0:ℕ) < 1)]
    rw [hsample]
  · unfold extractTrackLimits
    dsimp only
    rw [getD_map_range _ _ (by omega : (0:ℕ) < 1)]
    rw [hsample]
  · rw [zero_mul, twoPoint_pose0]
    rfl
  · unfold specMinMagnitude
    simp only [List.foldl]
    try dsimp only
    rw [insideZone_ptpd, outsideZone_ptpd]
    try dsimp only
    have habs : |(0.1 : ℝ)| < |(-0.3 : ℝ)| := by
      rw [abs_of_pos (by norm_num : (0 : ℝ) < 0.1),
        abs_of_neg (by norm_num : (-0.3 : ℝ) < 0)]
      norm_num
    rw [if_pos habs]

/-- Witness for the amended C2 at the counterexample input, sample 0. -/
theorem C2_bounds_witness :
    (extractTrackLimits (parameterizeCore twoPointCL) [insideZone, outsideZone]
        1).leftBounds.getD 0 0 =
      (match ([insideZone, outsideZone].filterMap (fun z => pointToPolygonDistance
          (poseAtArcLength (parameterizeCore twoPointCL)
            (((0 : ℕ) : ℝ) * ((parameterizeCore twoPointCL).totalLength /
              ((max 1 (1 - 1) : ℕ) : ℝ)))).pos z.poly)).min? with
        | some m => -m
        | none => -0.5) ∧
    (extractTrackLimits (parameterizeCore twoPointCL) [insideZone, outsideZone]
        1).rightBounds.getD 0 0 =
      (match ([insideZone, outsideZone].filterMap (fun z => pointToPolygonDistance
          (poseAtArcLength (parameterizeCore twoPointCL)
            (((0 : ℕ) : ℝ) * ((parameterizeCore twoPointCL).totalLength /
              ((max 1 (1 - 1) : ℕ) : ℝ)))).pos z.poly)).min? with
        | some m => m
        | none => 0.5) :=
  C2_bounds_amended (parameterizeCore twoPointCL) [insideZone, outsideZone] 1 0
    (by omega)

/-! ## Claim C6: idempotence of the canonical quad orderer -/

theorem jsSign_cases (v : ℝ) :
    (0 < v ∧ jsSign v = 1) ∨ (v < 0 ∧ jsSign v = -1) ∨ (v = 0 ∧ jsSign v = 0) := by
  unfold jsSign
  rcases lt_trichotomy v 0 with h | h | h
  · exact Or.inr (Or.inl ⟨h, by rw [if_neg (by linarith), if_pos h]⟩)
  · exact Or.inr (Or.inr ⟨h, by rw [if_neg (by linarith), if_neg (by linarith)]⟩)
  · exact Or.inl ⟨h, by rw [if_pos h]⟩

theorem isConvexQuad_sign {a b c d : Pt} (h : isConvexQuad [a, b, c, d] = true) :
    (0 < cross a b c ∧ 0 < cross b c d ∧ 0 < cross c d a ∧ 0 < cross d a b) ∨
    (cross a b c < 0 ∧ cross b c d < 0 ∧ cross c d a < 0 ∧ cross d a b < 0) := by
  have g0 : ([a, b, c, d] : List Pt).getD 0 ⟨0, 0⟩ = a := rfl
  have g1 : ([a, b, c, d] : List Pt).getD 1 ⟨0, 0⟩ = b := rfl
  have g2 : ([a, b, c, d] : List Pt).getD 2 ⟨0, 0⟩ = c := rfl
  have g3 : ([a, b, c, d] : List Pt).getD 3 ⟨0, 0⟩ = d := rfl
  unfold isConvexQuad at h
  simp only [g0, g1, g2, g3] at h
  rw [decide_eq_true_eq] at h
  obtain ⟨h1, h12, h23, h34⟩ := h
  rcases jsSign_cases (cross a b c) with ⟨p1, e1⟩ | ⟨p1, e1⟩ | ⟨p1, e1⟩ <;>
    rcases jsSign_cases (cross b c d) with ⟨p2, e2⟩ | ⟨p2, e2⟩ | ⟨p2, e2⟩ <;>
    rcases jsSign_cases (cross c d a) with ⟨p3, e3⟩ | ⟨p3, e3⟩ | ⟨p3, e3⟩ <;>
    rcases jsSign_cases (cross d a b) with ⟨p4, e4⟩ | ⟨p4, e4⟩ | ⟨p4, e4⟩ <;>
    rw [e1, e2] at h12 <;> rw [e2, e3] at h23 <;> rw [e3, e4] at h34 <;>
    rw [e1] at h1 <;>
    first
      | (exact Or.inl ⟨p1, p2, p3, p4⟩)
      | (exact Or.inr ⟨p1, p2, p3, p4⟩)
      | norm_num at h1 h12 h23 h34

theorem quadCentroid_explicit (a b c d : Pt) :
    quadCentroid [a, b, c, d] =
      ⟨(a.x + b.x + c.x + d.x) / 4, (a.y + b.y + c.y + d.y) / 4⟩ := by
  unfold quadCentroid
  simp only [List.foldl]
  simp only [Pt.mk.injEq]
  constructor <;> ring

theorem isConvexQuad_rot {a b c d : Pt} (h : isConvexQuad [a, b, c, d] = true) :
    isConvexQuad [b, c, d, a] = true := by
  have g0 : ([a, b, c, d] : List Pt).getD 0 ⟨0, 0⟩ = a := rfl
  have g1 : ([a, b, c, d] : List Pt).getD 1 ⟨0, 0⟩ = b := rfl
  have g2 : ([a, b, c, d] : List Pt).getD 2 ⟨0, 0⟩ = c := rfl
  have g3 : ([a, b, c, d] : List Pt).getD 3 ⟨0, 0⟩ = d := rfl
  have f0 : ([b, c, d, a] : List Pt).getD 0 ⟨0, 0⟩ = b := rfl
  have f1 : ([b, c, d, a] : List Pt).getD 1 ⟨0, 0⟩ = c := rfl
  have f2 : ([b, c, d, a] : List Pt).getD 2 ⟨0, 0⟩ = d := rfl
  have f3 : ([b, c, d, a] : List Pt).getD 3 ⟨0, 0⟩ = a := rfl
  unfold isConvexQuad at h ⊢
  simp only [g0, g1, g2, g3] at h
  simp only [f0, f1, f2, f3]
  rw [decide_eq_true_eq] at h
  rw [decide_eq_true_eq]
  obtain ⟨h1, h12, h23, h34⟩ := h
  refine ⟨?_, h23, h34, (h34.symm.trans h23.symm).trans h12.symm⟩
  rw [← h12]
  exact h1

theorem quadCentroid_rot (a b c d : Pt) :
    quadCentroid [b, c, d, a] = quadCentroid [a, b, c, d] := by
  rw [quadCentroid_explicit, quadCentroid_explicit]
  simp only [Pt.mk.injEq]
  constructor <;> ring

theorem arg_eq_imp {x1 y1 x2 y2 : ℝ} (h1 : ¬ (x1 = 0 ∧ y1 = 0))
    (h2 : ¬ (x2 = 0 ∧ y2 = 0))
    (heq : Complex.arg ⟨x1, y1⟩ = Complex.arg ⟨x2, y2⟩) :
    ∃ r1 r2 : ℝ, 0 < r1 ∧ 0 < r2 ∧ r1 * x1 = r2 * x2 ∧ r1 * y1 = r2 * y2 := by
  have hz1 : (⟨x1, y1⟩ : ℂ) ≠ 0 := by
    intro hz
    rw [Complex.ext_iff] at hz
    exact h1 ⟨hz.1, hz.2⟩
  have hz2 : (⟨x2, y2⟩ : ℂ) ≠ 0 := by
    intro hz
    rw [Complex.ext_iff] at hz
    exact h2 ⟨hz.1, hz.2⟩
  obtain ⟨r1, r2, hr1, hr2, hre⟩ :=
    (Complex.sameRay_of_arg_eq heq).exists_pos hz1 hz2
  refine ⟨r1, r2, hr1, hr2, ?_, ?_⟩
  · have := congrArg Complex.re hre
    simpa [Complex.smul_re, smul_eq_mul] using this
  · have := congrArg Complex.im hre
    simpa [Complex.smul_im, smul_eq_mul] using this

theorem vertex_ne_centroid {a b c d : Pt} (h : isConvexQuad [a, b, c, d] = true) :
    ¬ (a.x - (quadCentroid [a, b, c, d]).x = 0 ∧
       a.y - (quadCentroid [a, b, c, d]).y = 0) := by
  rw [quadCentroid_explicit]
  dsimp only
  intro ⟨hx, hy⟩
  obtain ⟨dx, dy⟩ := d
  dsimp only at hx hy
  have hdx : dx = 3 * a.x - b.x - c.x := by field_simp at hx; linarith
  have hdy : dy = 3 * a.y - b.y - c.y := by field_simp at hy; linarith
  subst hdx hdy
  rcases isConvexQuad_sign h with ⟨p1, p2, p3, p4⟩ | ⟨p1, p2, p3, p4⟩ <;>
  · unfold cross at p1 p4
    dsimp only at p1 p4
    nlinarith [p1, p4]

theorem adjacent_args_ne {a b c d : Pt} (h : isConvexQuad [a, b, c, d] = true) :
    Complex.arg ⟨a.x - (quadCentroid [a, b, c, d]).x,
        a.y - (quadCentroid [a, b, c, d]).y⟩ ≠
      Complex.arg ⟨b.x - (quadCentroid [a, b, c, d]).x,
        b.y - (quadCentroid [a, b, c, d]).y⟩ := by
  intro heq
  have hna := vertex_ne_centroid h
  have hnb := vertex_ne_centroid (isConvexQuad_rot h)
  rw [quadCentroid_rot] at hnb
  obtain ⟨r1, r2, hr1, hr2, hex, hey⟩ := arg_eq_imp hna hnb heq
  rw [quadCentroid_explicit] at hex hey
  dsimp only at hex hey
  have hcr : r1 * ((a.x - (a.x + b.x + c.x + d.x) / 4) *
        (b.y - (a.y + b.y + c.y + d.y) / 4) -
      (a.y - (a.y + b.y + c.y + d.y) / 4) *
        (b.x - (a.x + b.x + c.x + d.x) / 4)) = 0 := by
    linear_combination (b.y - (a.y + b.y + c.y + d.y) / 4) * hex -
      (b.x - (a.x + b.x + c.x + d.x) / 4) * hey
  have hident : (a.x - (a.x + b.x + c.x + d.x) / 4) *
        (b.y - (a.y + b.y + c.y + d.y) / 4) -
      (a.y - (a.y + b.y + c.y + d.y) / 4) *
        (b.x - (a.x + b.x + c.x + d.x) / 4) =
      (cross a b c + cross d a b) / 4 := by
    unfold cross
    ring
  rw [hident] at hcr
  rcases mul_eq_zero.mp hcr with h0 | h0
  · linarith
  · rcases isConvexQuad_sign h with ⟨p1, _, _, p4⟩ | ⟨p1, _, _, p4⟩ <;> linarith

theorem opposite_args_ne {a b c d : Pt} (h : isConvexQuad [a, b, c, d] = true) :
    Complex.arg ⟨a.x - (quadCentroid [a, b, c, d]).x,
        a.y - (quadCentroid [a, b, c, d]).y⟩ ≠
      Complex.arg ⟨c.x - (quadCentroid [a, b, c, d]).x,
        c.y - (quadCentroid [a, b, c, d]).y⟩ := by
  intro heq
  have hna := vertex_ne_centroid h
  have hnc := vertex_ne_centroid (isConvexQuad_rot (isConvexQuad_rot h))
  rw [quadCentroid_rot, quadCentroid_rot] at hnc
  obtain ⟨r1, r2, hr1, hr2, hex, hey⟩ := arg_eq_imp hna hnc heq
  rw [quadCentroid_explicit] at hex hey
  dsimp only at hex hey
  have hcr : r1 * ((a.x - (a.x + b.x + c.x + d.x) / 4) *
        (b.y - (a.y + b.y + c.y + d.y) / 4) -
      (a.y - (a.y + b.y + c.y + d.y) / 4) *
        (b.x - (a.x + b.x + c.x + d.x) / 4)) =
      r2 * ((c.x - (a.x + b.x + c.x + d.x) / 4) *
        (b.y - (a.y + b.y + c.y + d.y) / 4) -
      (c.y - (a.y + b.y + c.y + d.y) / 4) *
        (b.x - (a.x + b.x + c.x + d.x) / 4)) := by
    linear_combination (b.y - (a.y + b.y + c.y + d.y) / 4) * hex -
      (b.x - (a.x + b.x + c.x + d.x) / 4) * hey
  have hidentAB : (a.x - (a.x + b.x + c.x + d.x) / 4) *
        (b.y - (a.y + b.y + c.y + d.y) / 4) -
      (a.y - (a.y + b.y + c.y + d.y) / 4) *
        (b.x - (a.x + b.x + c.x + d.x) / 4) =
      (cross a b c + cross d a b) / 4 := by
    unfold cross
    ring
  have hidentCB : (c.x - (a.x + b.x + c.x + d.x) / 4) *
        (b.y - (a.y + b.y + c.y + d.y) / 4) -
      (c.y - (a.y + b.y + c.y + d.y) / 4) *
        (b.x - (a.x + b.x + c.x + d.x) / 4) =
      -((cross a b c + cross b c d) / 4) := by
    unfold cross
    ring
  rw [hidentAB, hidentCB] at hcr
  rcases isConvexQuad_sign h with ⟨p1, p2, _, p4⟩ | ⟨p1, p2, _, p4⟩
  · nlinarith [mul_pos hr1 (show (0:ℝ) < (cross a b c + cross d a b) / 4 by linarith),
      mul_pos hr2 (show (0:ℝ) < (cross a b c + cross b c d) / 4 by linarith)]
  · nlinarith [mul_pos hr1 (show (0:ℝ) < -((cross a b c + cross d a b) / 4) by linarith),
      mul_pos hr2 (show (0:ℝ) < -((cross a b c + cross b c d) / 4) by linarith)]

theorem angleAround_eq_arg (c p : Pt) :
    angleAround c p = Complex.arg ⟨p.x - c.x, p.y - c.y⟩ := rfl

/-- For a strictly convex cyclic order, the four polar angles around the
centroid are pairwise distinct. -/
theorem convex_angles_pairwise {a b c d : Pt}
    (h : isConvexQuad [a, b, c, d] = true) :
    List.Pairwise (fun p q => angleAround (quadCentroid [a, b, c, d]) p ≠
      angleAround (quadCentroid [a, b, c, d]) q) [a, b, c, d] := by
  have hc1 := isConvexQuad_rot h
  have hc2 := isConvexQuad_rot hc1
  have hc3 := isConvexQuad_rot hc2
  have hab : angleAround (quadCentroid [a, b, c, d]) a ≠
      angleAround (quadCentroid [a, b, c, d]) b := adjacent_args_ne h
  have hac : angleAround (quadCentroid [a, b, c, d]) a ≠
      angleAround (quadCentroid [a, b, c, d]) c := opposite_args_ne h
  have hbc : angleAround (quadCentroid [a, b, c, d]) b ≠
      angleAround (quadCentroid [a, b, c, d]) c := by
    have := adjacent_args_ne hc1
    rwa [quadCentroid_rot] at this
  have hbd : angleAround (quadCentroid [a, b, c, d]) b ≠
      angleAround (quadCentroid [a, b, c, d]) d := by
    have := opposite_args_ne hc1
    rwa [quadCentroid_rot] at this
  have hcd : angleAround (quadCentroid [a, b, c, d]) c ≠
      angleAround (quadCentroid [a, b, c, d]) d := by
    have := adjacent_args_ne hc2
    rwa [quadCentroid_rot, quadCentroid_rot] at this
  have hda : angleAround (quadCentroid [a, b, c, d]) d ≠
      angleAround (quadCentroid [a, b, c, d]) a := by
    have := adjacent_args_ne hc3
    rwa [quadCentroid_rot, quadCentroid_rot, quadCentroid_rot] at this
  refine List.Pairwise.cons ?_ (List.Pairwise.cons ?_
    (List.Pairwise.cons ?_ (List.Pairwise.cons ?_ List.Pairwise.nil)))
  · intro p hp
    rcases List.mem_cons.mp hp with rfl | hp
    · exact hab
    rcases List.mem_cons.mp hp with rfl | hp
    · exact hac
    rcases List.mem_cons.mp hp with rfl | hp
    · exact hda.symm
    exact absurd hp (List.not_mem_nil p)
  · intro p hp
    rcases List.mem_cons.mp hp with rfl | hp
    · exact hbc
    rcases List.mem_cons.mp hp with rfl | hp
    · exact hbd
    exact absurd hp (List.not_mem_nil p)
  · intro p hp
    rcases List.mem_cons.mp hp with rfl | hp
    · exact hcd
    exact absurd hp (List.not_mem_nil p)
  · intro p hp
    exact absurd hp (List.not_mem_nil p)

/-- A stable sort's output is determined by the multiset when the keys are
pairwise distinct. -/
theorem sorted_unique {l1 l2 : List (Pt × ℝ)} (hp : l1.Perm l2)
    (hs1 : l1.Sorted (fun u v : Pt × ℝ => u.2 ≤ v.2))
    (hs2 : l2.Sorted (fun u v : Pt × ℝ => u.2 ≤ v.2))
    (hnd : (l1.map Prod.snd).Nodup) : l1 = l2 := by
  have hnd2 : (l2.map Prod.snd).Nodup := ((hp.map Prod.snd).nodup_iff).mp hnd
  have hne1 : l1.Pairwise (fun u v : Pt × ℝ => u.2 ≠ v.2) :=
    (List.pairwise_map).mp hnd
  have hne2 : l2.Pairwise (fun u v : Pt × ℝ => u.2 ≠ v.2) :=
    (List.pairwise_map).mp hnd2
  have hlt1 : l1.Pairwise (fun u v : Pt × ℝ => u.2 < v.2) :=
    (hs1.and hne1).imp fun huv => lt_of_le_of_ne huv.1 huv.2
  have hlt2 : l2.Pairwise (fun u v : Pt × ℝ => u.2 < v.2) :=
    (hs2.and hne2).imp fun huv => lt_of_le_of_ne huv.1 huv.2
  haveI : IsAntisymm (Pt × ℝ) (fun u v : Pt × ℝ => u.2 < v.2) :=
    ⟨fun u v h1 h2 => absurd (lt_trans h1 h2) (lt_irrefl _)⟩
  exact List.eq_of_perm_of_sorted hp hlt1 hlt2

theorem sortByAngle_perm (raw : List Pt) (c : Pt) : (sortByAngle raw c).Perm raw := by
  unfold sortByAngle
  have h1 : ((raw.map (fun p => (p, angleAround c p))).map Prod.fst) = raw := by
    induction raw with
    | nil => rfl
    | cons p t ih =>
      simp only [List.map_cons]
      rw [ih]
  have h2 := (List.perm_insertionSort (fun u v : Pt × ℝ => u.2 ≤ v.2)
      (raw.map (fun p => (p, angleAround c p)))).map Prod.fst
  rw [h1] at h2
  exact h2

theorem sortByAngle_eq_of_perm (q q' : List Pt) (c : Pt) (hperm : q'.Perm q)
    (hnd : (q.map (angleAround c)).Nodup) :
    sortByAngle q' c = sortByAngle q c := by
  haveI hTot : IsTotal (Pt × ℝ) (fun u v : Pt × ℝ => u.2 ≤ v.2) :=
    ⟨fun u v => le_total u.2 v.2⟩
  haveI hTrans : IsTrans (Pt × ℝ) (fun u v : Pt × ℝ => u.2 ≤ v.2) :=
    ⟨fun u v w h1 h2 => le_trans h1 h2⟩
  have hmapAll : ∀ l : List Pt, ((l.map (fun p => (p, angleAround c p))).map Prod.snd) =
      l.map (angleAround c) := by
    intro l
    induction l with
    | nil => rfl
    | cons p t ih =>
      simp only [List.map_cons]
      rw [ih]
  have hmap := hmapAll q'
  have hnd' : (q'.map (angleAround c)).Nodup :=
    ((hperm.map (angleAround c)).nodup_iff).mpr hnd
  have hndsort : ((List.insertionSort (fun u v : Pt × ℝ => u.2 ≤ v.2)
      (q'.map (fun p => (p, angleAround c p)))).map Prod.snd).Nodup := by
    have hpm : ((List.insertionSort (fun u v : Pt × ℝ => u.2 ≤ v.2)
        (q'.map (fun p => (p, angleAround c p)))).map Prod.snd).Perm
        (q'.map (angleAround c)) := by
      rw [← hmap]
      exact (List.perm_insertionSort _ _).map Prod.snd
    exact (hpm.nodup_iff).mpr hnd'
  have key : List.insertionSort (fun u v : Pt × ℝ => u.2 ≤ v.2)
      (q'.map (fun p => (p, angleAround c p))) =
      List.insertionSort (fun u v : Pt × ℝ => u.2 ≤ v.2)
      (q.map (fun p => (p, angleAround c p))) := by
    apply sorted_unique
    · exact (List.perm_insertionSort _ _).trans
        ((hperm.map _).trans (List.perm_insertionSort _ _).symm)
    · exact List.sorted_insertionSort _ _
    · exact List.sorted_insertionSort _ _
    · exact hndsort
  unfold sortByAngle
  rw [key]

theorem exists_four {l : List Pt} (h : l.length = 4) :
    ∃ b0 b1 b2 b3, l = [b0, b1, b2, b3] := by
  rcases l with _ | ⟨b0, _ | ⟨b1, _ | ⟨b2, _ | ⟨b3, _ | ⟨b4, t⟩⟩⟩⟩⟩ <;>
    simp_all

theorem tlIdxOf_lt (l : List Pt) : tlIdxOf l < 4 := by
  unfold tlIdxOf
  simp only [List.foldl]
  split_ifs <;> omega

theorem quadCentroid_perm {q q' : List Pt} (h : q.Perm q') :
    quadCentroid q = quadCentroid q' := by
  have hx : ∀ (li : List Pt) (init : Pt),
      li.foldl (fun a p => (⟨a.x + p.x, a.y + p.y⟩ : Pt)) init =
        ⟨init.x + (li.map Pt.x).sum, init.y + (li.map Pt.y).sum⟩ := by
    intro li
    induction li with
    | nil =>
      intro init
      cases init
      simp
    | cons p t ih =>
      intro init
      rw [List.foldl_cons, ih]
      simp only [List.map_cons, List.sum_cons, Pt.mk.injEq]
      constructor <;> ring
  unfold quadCentroid
  rw [hx, hx, (h.map Pt.x).sum_eq, (h.map Pt.y).sum_eq]

theorem rotateAndFix_perm (l : List Pt) (h : l.length = 4) :
    (rotateAndFix l).Perm l := by
  obtain ⟨b0, b1, b2, b3, rfl⟩ := exists_four h
  have ht := tlIdxOf_lt [b0, b1, b2, b3]
  have hcases : tlIdxOf [b0, b1, b2, b3] = 0 ∨ tlIdxOf [b0, b1, b2, b3] = 1 ∨
      tlIdxOf [b0, b1, b2, b3] = 2 ∨ tlIdxOf [b0, b1, b2, b3] = 3 := by omega
  unfold rotateAndFix
  rcases hcases with hc | hc | hc | hc <;> rw [hc]
  · show (if b1.y > b3.y then [b0, b3, b2, b1] else [b0, b1, b2, b3]).Perm
      [b0, b1, b2, b3]
    split
    · exact List.Perm.cons b0 (List.reverse_perm [b1, b2, b3])
    · exact List.Perm.refl _
  · show (if b2.y > b0.y then [b1, b0, b3, b2] else [b1, b2, b3, b0]).Perm
      [b0, b1, b2, b3]
    split
    · exact List.Perm.append (List.Perm.swap b0 b1 []) (List.Perm.swap b2 b3 [])
    · exact @List.perm_append_comm Pt [b1, b2, b3] [b0]
  · show (if b3.y > b1.y then [b2, b1, b0, b3] else [b2, b3, b0, b1]).Perm
      [b0, b1, b2, b3]
    split
    · exact List.Perm.append_right [b3] (List.reverse_perm [b0, b1, b2])
    · exact @List.perm_append_comm Pt [b2, b3] [b0, b1]
  · show (if b0.y > b2.y then [b3, b2, b1, b0] else [b3, b0, b1, b2]).Perm
      [b0, b1, b2, b3]
    split
    · exact List.reverse_perm [b0, b1, b2, b3]
    · exact @List.perm_append_comm Pt [b3] [b0, b1, b2]

/-- C6: `orderQuad` is idempotent on every 4-point input whose points form a
convex, non-degenerate quadrilateral in some order: applying the orderer to
its own output returns the same ordered list. The centroid is invariant under
permutations, the angle keys around it are pairwise distinct (so the stable
sort's output depends only on the multiset of points), and rotate-and-swap is
a function of the sorted list, so the second pass reproduces the first. -/
theorem C6_orderQuad_idempotent (q : List Pt) (hlen : q.length = 4)
    (hconv : ∃ l, l.Perm q ∧ isConvexQuad l = true) :
    (orderQuadTLTRBRBLv2 q).bind orderQuadTLTRBRBLv2 = orderQuadTLTRBRBLv2 q := by
  obtain ⟨l, hlq, hcv⟩ := hconv
  have hl4 : l.length = 4 := by rw [hlq.length_eq, hlen]
  obtain ⟨a, b, c, d, rfl⟩ := exists_four hl4
  have hcent : quadCentroid q = quadCentroid [a, b, c, d] :=
    quadCentroid_perm hlq.symm
  have hpw : List.Pairwise (fun p p' => angleAround (quadCentroid q) p ≠
      angleAround (quadCentroid q) p') q := by
    rw [hcent]
    exact (hlq.pairwise_iff (fun h h2 => h h2.symm)).mp
      (convex_angles_pairwise hcv)
  have hnd : (q.map (angleAround (quadCentroid q))).Nodup :=
    (List.pairwise_map).mpr hpw
  have hne4 : ¬ q.length ≠ 4 := by rw [hlen]; exact fun hk => hk rfl
  have h1 : orderQuadTLTRBRBLv2 q =
      .ok (rotateAndFix (sortByAngle q (quadCentroid q))) := by
    unfold orderQuadTLTRBRBLv2
    rw [if_neg hne4]
  set out := rotateAndFix (sortByAngle q (quadCentroid q)) with hout
  have hsp : (sortByAngle q (quadCentroid q)).Perm q := sortByAngle_perm q _
  have hslen : (sortByAngle q (quadCentroid q)).length = 4 := by
    rw [hsp.length_eq, hlen]
  have hout_perm : out.Perm q := (rotateAndFix_perm _ hslen).trans hsp
  have hlen2 : out.length = 4 := by rw [hout_perm.length_eq, hlen]
  have hne4o : ¬ out.length ≠ 4 := by rw [hlen2]; exact fun hk => hk rfl
  have hco : quadCentroid out = quadCentroid q := quadCentroid_perm hout_perm
  have hsort : sortByAngle out (quadCentroid out) =
      sortByAngle q (quadCentroid q) := by
    rw [hco]
    exact sortByAngle_eq_of_perm q out (quadCentroid q) hout_perm hnd
  have h2 : orderQuadTLTRBRBLv2 out = .ok out := by
    unfold orderQuadTLTRBRBLv2
    rw [if_neg hne4o, hsort]
  rw [h1]
  show orderQuadTLTRBRBLv2 out = Except.ok out
  exact h2

/-- Witness: the diamond quad (5,4), (6,5), (5,6), (4,5) is convex and the
orderer is idempotent on it. -/
theorem C6_idempotent_witness :
    (orderQuadTLTRBRBLv2 [⟨5, 4⟩, ⟨6, 5⟩, ⟨5, 6⟩, ⟨4, 5⟩]).bind
        orderQuadTLTRBRBLv2 =
      orderQuadTLTRBRBLv2 [⟨5, 4⟩, ⟨6, 5⟩, ⟨5, 6⟩, ⟨4, 5⟩] :=
  C6_orderQuad_idempotent _ rfl
    ⟨[⟨5, 4⟩, ⟨6, 5⟩, ⟨5, 6⟩, ⟨4, 5⟩], List.Perm.refl _, by
      simp only [isConvexQuad, List.getD, cross, jsSign]
      norm_num⟩

end RcCoach
